import Mathlib

/-!
# Verification of the score-table game core (src/index.js)

Shallow embedding of the score-table widget's core: the `Game`/`Player` grid
model with its resize operations, the per-player total computation, the
highest/lowest extremes calculator, and the localStorage persistence codec.

JS arrays of optional scores are modelled as `List (Option Int)`: a `none`
entry stands for an array hole (an unset slot), and reading past the end of
the list yields `none`, matching JS `undefined` for out-of-range indices.
JS numbers appearing as scores and counts are integers in the source (they
are produced by `parseInt`), and are modelled as `Int` (unbounded; the two
sentinels `Number.MAX_SAFE_INTEGER` / `MIN_SAFE_INTEGER` are the exact
integers 2^53 - 1 and -(2^53 - 1), and all comparisons in the source are
exact on integers in this range).
-/

set_option linter.unusedVariables false

/-- `Number.MAX_SAFE_INTEGER`, used by the source as the initial sentinel of
the lowest-value scan. -/
def MAX_SAFE_INTEGER : Int := 2 ^ 53 - 1

/-- `Number.MIN_SAFE_INTEGER`, used by the source as the initial sentinel of
the highest-value scan. -/
def MIN_SAFE_INTEGER : Int := -(2 ^ 53 - 1)

/-- The loop body of `numberArrayUtils.itemIndexesWithExtremeValues`
(src/index.js lines 20-40).  `cur` is `currentExtremeValue`, `acc` is
`indexesWithExtremeValue`, `i` is the loop counter.  In JS the current
extreme can in principle be any value the callback selects, so it is an
`Option Int` like the array elements; `===` on such values is decidable
equality (`undefined === undefined` is `true`, a number equals a number
exactly). -/
def itemIndexesLoop (isExt : Option Int → Option Int → Bool) :
    Option Int → List ℕ → ℕ → List (Option Int) → List ℕ
  | cur, acc, _, [] => acc
  | cur, acc, i, v :: vs =>
    let cur2 := if isExt cur v then v else cur
    let acc2 := if isExt cur v then ([] : List ℕ) else acc
    let acc3 := if cur2 = v then acc2 ++ [i] else acc2
    itemIndexesLoop isExt cur2 acc3 (i + 1) vs

/-- `numberArrayUtils.itemIndexesWithExtremeValues(values, initialExtremeValue,
isExtremeValue)` from src/index.js lines 20-40. -/
def itemIndexesWithExtremeValues (values : List (Option Int))
    (initialExtremeValue : Option Int)
    (isExtremeValue : Option Int → Option Int → Bool) : List ℕ :=
  itemIndexesLoop isExtremeValue initialExtremeValue [] 0 values

/-- The callback `(lowestValue, value) => lowestValue > value` of the lowest
scan.  In JS any comparison involving `undefined` is `false`. -/
def isLowerExtreme : Option Int → Option Int → Bool
  | some c, some v => decide (v < c)
  | _, _ => false

/-- The callback `(highestValue, value) => highestValue < value` of the
highest scan.  In JS any comparison involving `undefined` is `false`. -/
def isHigherExtreme : Option Int → Option Int → Bool
  | some c, some v => decide (c < v)
  | _, _ => false

/-- `Player` (src/index.js lines 135-165): a name and a round-score array. -/
structure Player where
  name : String
  roundScores : List (Option Int)
deriving DecidableEq, Repr

instance : Inhabited Player := ⟨⟨"", []⟩⟩

/-- `Player.totalScore` (src/index.js lines 157-164): a JS
`Array.prototype.reduce` with initial value `undefined`.  `reduce` skips
holes of a sparse array, so a `none` slot is not visited at all; a visited
score `v` contributes `v ?? 0 = v`, turning an `undefined` accumulator into
`v` and otherwise adding. -/
def totalScore (roundScores : List (Option Int)) : Option Int :=
  roundScores.foldl
    (fun previous current =>
      match current with
      | none => previous
      | some v =>
        match previous with
        | none => some v
        | some p => some (p + v))
    none

/-- The default player created by `Game.#modifyPlayers` when a slot is
missing: `new Player(`player ${i + 1}`)`, whose score array is the empty
array. -/
def mkDefaultPlayer (i : ℕ) : Player :=
  ⟨"player " ++ toString (i + 1), []⟩

/-- `players[i].roundScores.splice(roundCount - players[i].roundScores.length)`
(src/index.js line 238), executed when `roundCount < length`: it removes the
tail from index `roundCount` on.  `List.take roundCount` is the same
operation, and is also the identity when the array is not longer than
`roundCount`, matching the guard. -/
def truncScores (roundCount : ℕ) (p : Player) : Player :=
  { p with roundScores := p.roundScores.take roundCount }

/-- `Game.#modifyPlayers(playerCount, roundCount, players)` (src/index.js
lines 232-245).  The JS loop walks `i = 0 .. playerCount - 1`, backfilling a
default player at every missing index and truncating each score array to
`roundCount`; the final `splice` drops players at indices `≥ playerCount`.
The result is therefore exactly the first `playerCount` positions, each
taken from `players` when present and defaulted otherwise. -/
def modifyPlayers (playerCount roundCount : ℕ) (players : List Player) :
    List Player :=
  (List.range playerCount).map
    (fun i => truncScores roundCount (players.getD i (mkDefaultPlayer i)))

/-- `Game` (src/index.js lines 167-295).  The two counts are natural numbers:
the configuration surface feeds the setters positive integers (spec §6), and
the only operations the source performs with them (`i < count` loops and
`splice` truncation) treat a negative count exactly like `0`. -/
structure Game where
  roundCount : ℕ
  playerCount : ℕ
  players : List Player
deriving DecidableEq, Repr

/-- The `Game` constructor (src/index.js lines 182-186): stores both counts
and normalises the given player array through `#modifyPlayers`. -/
def mkGame (roundCount playerCount : ℕ) (players : List Player) : Game :=
  ⟨roundCount, playerCount, modifyPlayers playerCount roundCount players⟩

/-- The `roundCount` setter (src/index.js lines 204-207). -/
def Game.setRoundCount (g : Game) (newRoundCount : ℕ) : Game :=
  { g with
    roundCount := newRoundCount
    players := modifyPlayers g.playerCount newRoundCount g.players }

/-- The `playerCount` setter (src/index.js lines 212-215). -/
def Game.setPlayerCount (g : Game) (newPlayerCount : ℕ) : Game :=
  { g with
    playerCount := newPlayerCount
    players := modifyPlayers newPlayerCount g.roundCount g.players }

/-- `Game.clearPlayerScores` (src/index.js lines 220-224) calls
`player.clearRoundScores()` on every player, which assigns the empty array
(src/index.js lines 150-152). -/
def Game.clearPlayerScores (g : Game) : Game :=
  { g with players := g.players.map (fun p => { p with roundScores := [] }) }

/-- Assignment `arr[i] = v` on a JS array of optional scores (`v` is the raw
stored value): within bounds it overwrites the slot, past the end it extends
the array with holes up to `i` and stores `v` at index `i`. -/
def jsArraySetAny (l : List (Option Int)) (i : ℕ) (v : Option Int) :
    List (Option Int) :=
  if i < l.length then l.set i v
  else l ++ List.replicate (i - l.length) none ++ [v]

/-- `game.players[j-1].roundScores[i] = score` (src/index.js line 383). -/
def jsArraySet (l : List (Option Int)) (i : ℕ) (v : Int) : List (Option Int) :=
  jsArraySetAny l i (some v)

/-- `delete game.players[j-1].roundScores[i]` (src/index.js line 381): within
bounds it leaves a hole, past the end it does nothing. -/
def jsArrayDelete (l : List (Option Int)) (i : ℕ) : List (Option Int) :=
  if i < l.length then l.set i none else l

/-- The score-cell edit handler (src/index.js lines 377-385): a numeric input
stores the parsed integer, a non-numeric one deletes the slot. -/
def Game.setScore (g : Game) (p r : ℕ) (v : Option Int) : Game :=
  { g with
    players :=
      g.players.set p
        (let pl := g.players.getD p default
         { pl with
           roundScores :=
             match v with
             | some x => jsArraySet pl.roundScores r x
             | none => jsArrayDelete pl.roundScores r }) }

/-- The header-cell edit handler (src/index.js line 451): renames a player. -/
def Game.renamePlayer (g : Game) (p : ℕ) (s : String) : Game :=
  { g with
    players := g.players.set p { g.players.getD p default with name := s } }

/-- The mutations the UI can apply to the game (src/index.js lines 377-385,
451, 514-533).  Score edits and renames only exist for cells the table
renders, i.e. for player indices `< playerCount` and round indices
`< roundCount`; out-of-range events cannot occur and are modelled as no-ops. -/
inductive GameMutation where
  | setRound (n : ℕ)
  | setPlayers (n : ℕ)
  | setScore (p r : ℕ) (v : Option Int)
  | rename (p : ℕ) (s : String)
  | clear
deriving DecidableEq, Repr

/-- Dispatch of a UI event to the corresponding `Game` operation. -/
def applyMutation (g : Game) : GameMutation → Game
  | .setRound n => g.setRoundCount n
  | .setPlayers n => g.setPlayerCount n
  | .setScore p r v =>
    if p < g.playerCount ∧ r < g.roundCount then g.setScore p r v else g
  | .rename p s => if p < g.playerCount then g.renamePlayer p s else g
  | .clear => g.clearPlayerScores

/-- The observable score of player `p` at round `r`: reading
`players[p].roundScores[r]`, with `undefined` (`none`) for a hole, a missing
round, or a missing player. -/
def getSlot (g : Game) (p r : ℕ) : Option Int :=
  ((g.players.getD p default).roundScores).getD r none

/-- The observable name of player `p`; a missing player reads as the default
player of that position (both sides of every statement below use the same
convention, so this only matters past `playerCount`). -/
def getName (g : Game) (p : ℕ) : String :=
  (g.players.getD p (mkDefaultPlayer p)).name

/-- The invariant the `Game` constructor establishes and every mutation
preserves: the player array has exactly `playerCount` entries and no score
array extends past `roundCount`. -/
def GameInv (g : Game) : Prop :=
  g.players.length = g.playerCount ∧
    ∀ p ∈ g.players, p.roundScores.length ≤ g.roundCount

instance (g : Game) : Decidable (GameInv g) := by
  unfold GameInv; infer_instance

/-- `HighestLowestTotalScoreCalculationResult` (src/index.js line 11). -/
structure HighestLowestTotalScoreCalculationResult where
  hasHighestTotalScore : Bool
  hasLowestTotalScore : Bool
deriving DecidableEq, Repr

instance : Inhabited HighestLowestTotalScoreCalculationResult := ⟨⟨false, false⟩⟩

/-- The count of defined totals (src/index.js lines 254-260):
`totalScores.reduce((previous, current) => current !== undefined ? previous+1
: previous, 0)`.  The reduce runs over `Array.prototype.map` output, which
has no holes. -/
def notUndefinedCount (totalScores : List (Option Int)) : ℕ :=
  totalScores.foldl
    (fun previous current =>
      match current with
      | some _ => previous + 1
      | none => previous)
    0

/-- The `result[i].hasHighestTotalScore = true` marking loop (src/index.js
lines 285-287), as a fold of in-place updates. -/
def markHighest (result : List HighestLowestTotalScoreCalculationResult)
    (idxs : List ℕ) : List HighestLowestTotalScoreCalculationResult :=
  idxs.foldl
    (fun r h => r.set h { r.getD h default with hasHighestTotalScore := true })
    result

/-- The `result[i].hasLowestTotalScore = true` marking loop (src/index.js
lines 289-291). -/
def markLowest (result : List HighestLowestTotalScoreCalculationResult)
    (idxs : List ℕ) : List HighestLowestTotalScoreCalculationResult :=
  idxs.foldl
    (fun r h => r.set h { r.getD h default with hasLowestTotalScore := true })
    result

/-- The body of `Game.calculateHighestAndLowestPlayerTotalScores`
(src/index.js lines 251-294) as a function of the per-player totals list
(`totalScores = players.map(p => p.totalScore)`; the `players.length`
appearing in the degenerate test equals `totalScores.length`). -/
def calculateHighestAndLowestOfTotals (totalScores : List (Option Int)) :
    List HighestLowestTotalScoreCalculationResult :=
  let lowestScoreIndexes :=
    itemIndexesWithExtremeValues totalScores (some MAX_SAFE_INTEGER) isLowerExtreme
  let highestScoreIndexes :=
    itemIndexesWithExtremeValues totalScores (some MIN_SAFE_INTEGER) isHigherExtreme
  let result : List HighestLowestTotalScoreCalculationResult :=
    totalScores.map (fun _ => ⟨false, false⟩)
  if highestScoreIndexes.length = totalScores.length
      ∨ lowestScoreIndexes.length = totalScores.length
      ∨ highestScoreIndexes.length = notUndefinedCount totalScores
      ∨ lowestScoreIndexes.length = notUndefinedCount totalScores
  then result
  else markLowest (markHighest result highestScoreIndexes) lowestScoreIndexes

/-- `Game.calculateHighestAndLowestPlayerTotalScores` (src/index.js lines
251-294). -/
def Game.calculateHighestAndLowestPlayerTotalScores (g : Game) :
    List HighestLowestTotalScoreCalculationResult :=
  calculateHighestAndLowestOfTotals (g.players.map (fun p => totalScore p.roundScores))

/-! ## Analysis helpers for the extreme-value scan

`runLow c vs` / `runHigh c vs` compute the final value of
`currentExtremeValue` for the lowest / highest scan started at `c`, and
`occIdx x i vs` lists the positions (offset by `i`) whose value is exactly
`some x`; the scan is proved below to return exactly the occurrences of its
final current value. -/

/-- Final `currentExtremeValue` of the lowest scan started at `c`. -/
def runLow : Int → List (Option Int) → Int
  | c, [] => c
  | c, v :: vs =>
    runLow (match v with | some x => if x < c then x else c | none => c) vs

/-- Final `currentExtremeValue` of the highest scan started at `c`. -/
def runHigh : Int → List (Option Int) → Int
  | c, [] => c
  | c, v :: vs =>
    runHigh (match v with | some x => if c < x then x else c | none => c) vs

/-- Positions (offset by `i`) of the slots holding exactly the value `x`. -/
def occIdx (x : Int) : ℕ → List (Option Int) → List ℕ
  | _, [] => []
  | i, v :: vs => (if v = some x then [i] else []) ++ occIdx x (i + 1) vs

/-! ## Specification-side predicates for the extremes calculator

These are written from the claims' wording ("the indices achieving the
maximum defined total", the degenerate-case policy), independently of the
scan implementation above. -/

/-- The defined totals of the list, in order. -/
def definedTotals (totals : List (Option Int)) : List Int :=
  totals.filterMap id

/-- Whether position `i` holds a defined total. -/
def isDefinedAt (totals : List (Option Int)) (i : ℕ) : Bool :=
  match totals.get? i with
  | some (some _) => true
  | _ => false

/-- Whether position `i` achieves the maximum defined total: it holds a
defined total that every defined total is `≤`. -/
def attainsMax (totals : List (Option Int)) (i : ℕ) : Bool :=
  match totals.get? i with
  | some (some x) => (definedTotals totals).all (fun y => decide (y ≤ x))
  | _ => false

/-- Whether position `i` achieves the minimum defined total. -/
def attainsMin (totals : List (Option Int)) (i : ℕ) : Bool :=
  match totals.get? i with
  | some (some x) => (definedTotals totals).all (fun y => decide (x ≤ y))
  | _ => false

/-- The degenerate-case policy as the claim states it: the highest-total
index set equals the lowest-total index set, or either set covers all
players, or either set covers all players with a defined total. -/
def allDegenerate (totals : List (Option Int)) : Bool :=
  ((List.range totals.length).all
      (fun i => attainsMax totals i == attainsMin totals i))
  || (List.range totals.length).all (fun i => attainsMax totals i)
  || (List.range totals.length).all (fun i => attainsMin totals i)
  || (List.range totals.length).all
      (fun i => !isDefinedAt totals i || attainsMax totals i)
  || (List.range totals.length).all
      (fun i => !isDefinedAt totals i || attainsMin totals i)

/-- A defined total within the JS safe-integer range. -/
def SafeTotals (totals : List (Option Int)) : Prop :=
  ∀ v ∈ definedTotals totals,
    MIN_SAFE_INTEGER ≤ v ∧ v ≤ MAX_SAFE_INTEGER

instance (totals : List (Option Int)) : Decidable (SafeTotals totals) := by
  unfold SafeTotals; infer_instance

/-! ## JSON values and the JS coercions used by `gameStorage.tryLoad`

`JVal` models a parsed JSON value (the result of `JSON.parse`); object
fields are kept in entry order, which for parsed JSON objects with
integer-like keys is ascending numeric key order — exactly what
`JSON.stringify` of the codec's own output produces.  The coercion helpers
model the JS builtins on the fragments the storage record can contain;
`strNumberIsNaN` covers decimal numerals (it does not model hexadecimal or
exponent notation, which no storage key or value produced or accepted
elsewhere in the source uses). -/

inductive JVal where
  | null : JVal
  | bool : Bool → JVal
  | num : Int → JVal
  | str : String → JVal
  | arr : List JVal → JVal
  | obj : List (String × JVal) → JVal
deriving Repr

/-- JS truthiness of a value (`!x` in the source is its negation). -/
def jsTruthy : JVal → Bool
  | .null => false
  | .bool b => b
  | .num n => decide (n ≠ 0)
  | .str s => decide (s ≠ "")
  | .arr _ => true
  | .obj _ => true

/-- `typeof x === 'object'` (true for `null`, arrays and plain objects). -/
def typeofObject : JVal → Bool
  | .null => true
  | .arr _ => true
  | .obj _ => true
  | _ => false

/-- Property read `x[k]`: `none` models JS `undefined`. -/
def getField : JVal → String → Option JVal
  | .obj fields, k => (fields.find? (fun e => e.1 = k)).map (fun e => e.2)
  | _, _ => none

/-- The numeric value of a decimal digit character, `none` for any other
character. -/
def digitVal (c : Char) : Option ℕ :=
  if '0' ≤ c ∧ c ≤ '9' then some (c.toNat - '0'.toNat) else none

/-- Accumulate the leading decimal digits, stopping at the first non-digit —
the behaviour of `parseInt` after the sign. -/
def parseDigitsAcc : ℕ → List Char → ℕ
  | acc, [] => acc
  | acc, c :: cs =>
    match digitVal c with
    | some d => parseDigitsAcc (acc * 10 + d) cs
    | none => acc

/-- Parse a nonempty digit prefix; `none` when the first character is not a
digit. -/
def parseNatPrefix : List Char → Option ℕ
  | [] => none
  | c :: cs =>
    match digitVal c with
    | some d => some (parseDigitsAcc d cs)
    | none => none

/-- `parseInt(s)` (radix 10): optional sign followed by a digit prefix,
`none` for NaN.  Leading whitespace and the `0x` prefix are not modelled;
no key of a stored record contains them. -/
def jsParseInt (s : String) : Option Int :=
  match s.toList with
  | [] => none
  | c :: cs =>
    if c = '-' then (parseNatPrefix cs).map (fun n => -(n : Int))
    else if c = '+' then (parseNatPrefix cs).map (fun n => (n : Int))
    else (parseNatPrefix (c :: cs)).map (fun n => (n : Int))

/-- Digits of a natural number, most significant first — JS number-to-string
for the integer keys the codec writes. -/
def natDigits (n : ℕ) : List Char :=
  if h : n < 10 then [(Nat.digitChar n)]
  else natDigits (n / 10) ++ [Nat.digitChar (n % 10)]
decreasing_by exact Nat.div_lt_self (by omega) (by omega)

/-- Decimal string of a natural number (`String(i)` for an array index). -/
def natDecimal (n : ℕ) : String :=
  String.mk (natDigits n)

/-- Whether `Number(s)` is NaN, for a string value found in `roundScores`.
Covers signed decimal numerals with an optional fractional dot; the empty
string coerces to `0` (not NaN). -/
def strNumberIsNaN (s : String) : Bool :=
  match s.toList with
  | [] => false
  | cs =>
    let cs2 := match cs with
      | '-' :: r => r
      | '+' :: r => r
      | r => r
    !(decide (∃ c ∈ cs2, (digitVal c).isSome)
        && cs2.all (fun c => (digitVal c).isSome || c = '.')
        && decide ((cs2.filter (fun c => c = '.')).length ≤ 1))

/-- `isNaN(x)`: ToNumber coercion followed by the NaN test.  Singleton
arrays coerce through their joined string (`[x]` → `String(x)`); arrays of
two or more elements join with a comma and are always NaN; plain objects are
always NaN. -/
def jsIsNaN : JVal → Bool
  | .num _ => false
  | .null => false
  | .bool _ => false
  | .str s => strNumberIsNaN s
  | .obj _ => true
  | .arr [] => false
  | .arr [JVal.num _] => false
  | .arr [JVal.null] => false
  | .arr [JVal.str s] => strNumberIsNaN s
  | .arr [_] => true
  | .arr (_ :: _ :: _) => true

/-- The raw value `tryLoad` stores into the rebuilt score array.  The source
stores the JS value unchanged; every value a record saved by this program
contains is a number, and a number is what every modelled consumer of a slot
reads, so non-numeric values that pass the `isNaN` gate (only reachable
through hand-edited storage) are modelled as an unset slot. -/
def jsScoreVal : JVal → Option Int
  | .num n => some n
  | _ => none

/-- One `newRoundScores[maybeIndex] = maybeScore` assignment (src/index.js
line 78).  A negative `maybeIndex` creates a non-index property on the JS
array, invisible to every index-based read, length computation and
serialisation — modelled as a no-op. -/
def jsArraySetAt (l : List (Option Int)) (idx : Int) (v : Option Int) :
    List (Option Int) :=
  if idx < 0 then l else jsArraySetAny l idx.toNat v

/-- The entry loop of `tryLoad` over one player's `roundScores`
(src/index.js lines 69-79): parse each key with `parseInt`, reject NaN keys
and NaN-coercing values, and assign into the rebuilt array. -/
def buildRoundScores :
    List (Option Int) → List (String × JVal) → Except Unit (List (Option Int))
  | acc, [] => Except.ok acc
  | acc, e :: es =>
    match jsParseInt e.1 with
    | none => Except.error ()
    | some idx =>
      if jsIsNaN e.2 then Except.error ()
      else buildRoundScores (jsArraySetAt acc idx (jsScoreVal e.2)) es

/-- `Object.entries(x)` for the values that reach it (an array or a plain
object; the `typeof` gate excludes everything else). -/
def jsEntries : JVal → List (String × JVal)
  | .obj fields => fields
  | .arr xs => (List.range xs.length).zip xs |>.map (fun e => (natDecimal e.1, e.2))
  | _ => []

/-- A player record as rebuilt by `tryLoad`: name plus the dense-with-holes
score array. -/
structure PlayerDataDec where
  name : String
  roundScores : List (Option Int)
deriving Repr

instance : Inhabited PlayerDataDec := ⟨⟨"", []⟩⟩

/-- `GameData` as returned by `gameStorage.tryLoad`. -/
structure GameDataDec where
  players : List PlayerDataDec
  roundCount : Int
deriving Repr

/-- The per-player validation and rebuild of `tryLoad` (src/index.js lines
59-82): the player must have a truthy string `name` and a truthy
`roundScores` of `typeof 'object'`; then every entry is parsed. -/
def tryLoadPlayer (p : JVal) : Except Unit PlayerDataDec :=
  match getField p "name" with
  | some (.str s) =>
    if s = "" then Except.error ()
    else
      match getField p "roundScores" with
      | some rs =>
        if jsTruthy rs && typeofObject rs then
          (buildRoundScores [] (jsEntries rs)).map (fun scores => ⟨s, scores⟩)
        else Except.error ()
      | none => Except.error ()
  | _ => Except.error ()

/-- The player loop of `tryLoad`, failing at the first invalid player. -/
def tryLoadPlayersList : List JVal → Except Unit (List PlayerDataDec)
  | [] => Except.ok []
  | p :: ps =>
    match tryLoadPlayer p with
    | Except.error e => Except.error e
    | Except.ok q =>
      match tryLoadPlayersList ps with
      | Except.error e => Except.error e
      | Except.ok qs => Except.ok (q :: qs)

/-- `gameStorage.tryLoad` (src/index.js lines 48-84) on the parsed stored
record; `none` models both an absent record and a `JSON.parse` failure (the
caller's `try`/`catch` treats every thrown error identically).  The checks
mirror the source in order: `players` must be truthy, an array, nonempty;
`roundCount` must be a number; then each player is validated. -/
def tryLoad (item : Option JVal) : Except Unit GameDataDec :=
  match item with
  | none => Except.error ()
  | some maybeGame =>
    match getField maybeGame "players" with
    | some (.arr ps) =>
      if ps.length < 1 then Except.error ()
      else
        match getField maybeGame "roundCount" with
        | some (.num rc) =>
          (tryLoadPlayersList ps).map (fun players => ⟨players, rc⟩)
        | _ => Except.error ()
    | _ => Except.error ()

/-- One player's sparse score record, built by walking the array from index
`i` upward — the `reduce` of `convertRoundScoresToRoundScoresData`
(src/index.js lines 130-133) visits exactly the non-hole slots in ascending
index order. -/
def roundScoresDataGo : ℕ → List (Option Int) → List (ℕ × Int)
  | _, [] => []
  | i, none :: rest => roundScoresDataGo (i + 1) rest
  | i, some v :: rest => (i, v) :: roundScoresDataGo (i + 1) rest

/-- `convertRoundScoresToRoundScoresData` (src/index.js lines 130-133). -/
def convertRoundScoresToRoundScoresData (roundScores : List (Option Int)) :
    List (ℕ × Int) :=
  roundScoresDataGo 0 roundScores

/-- A player's serialised form. -/
structure PlayerDataEnc where
  name : String
  roundScores : List (ℕ × Int)
deriving Repr

/-- `GameData` as produced by `convertGameToGameData`. -/
structure GameDataEnc where
  players : List PlayerDataEnc
  roundCount : ℕ
deriving Repr

/-- `convertGameToGameData` (src/index.js lines 98-100). -/
def convertGameToGameData (g : Game) : GameDataEnc :=
  ⟨g.players.map
      (fun p => ⟨p.name, convertRoundScoresToRoundScoresData p.roundScores⟩),
    g.roundCount⟩

/-- The stored JSON form of one serialised player: the object literal
`{roundScores: ..., name}` of src/index.js line 99, with the sparse score
record's integer keys rendered as decimal strings (what `JSON.stringify`
followed by `JSON.parse` yields). -/
def playerDataToJVal (pd : PlayerDataEnc) : JVal :=
  .obj
    [("roundScores",
        .obj (pd.roundScores.map (fun e => (natDecimal e.1, JVal.num e.2)))),
      ("name", .str pd.name)]

/-- The stored JSON form of the whole record (`gameStorage.save` writes
`JSON.stringify(gameData)`; reading it back parses to this value). -/
def gameDataToJVal (gd : GameDataEnc) : JVal :=
  .obj
    [("players", .arr (gd.players.map playerDataToJVal)),
      ("roundCount", .num (gd.roundCount : Int))]

/-- `convertGameDataToGame` (src/index.js lines 106-111): rebuilds the
players and constructs a `Game` with `playerCount = players.length`.  The
stored `roundCount` reaches the constructor unchanged in JS; a negative
value drives every modelled operation exactly like `0` (loops do not run,
`splice` clamps), so the embedding clamps it at this boundary. -/
def convertGameDataToGame (gameData : GameDataDec) : Game :=
  mkGame gameData.roundCount.toNat gameData.players.length
    (gameData.players.map (fun q => ⟨q.name, q.roundScores⟩))

/-! ## Claim-side predicate for C7

The failure condition exactly as the claim words it, for the counterexample:
the claim's list does not mention `roundCount`, requires keys to parse as
*non-negative* integers, and requires values to be numeric. -/

/-- C7's per-player failure condition, as claimed. -/
def claimedBadPlayer (p : JVal) : Bool :=
  !(match getField p "name" with
    | some (.str s) => decide (s ≠ "")
    | _ => false)
  || (match getField p "roundScores" with
      | some rs =>
        !(jsTruthy rs && typeofObject rs)
        || (jsEntries rs).any
            (fun e =>
              !(match jsParseInt e.1 with
                | some i => decide (0 ≤ i)
                | none => false)
              || !(match e.2 with | .num _ => true | _ => false))
      | none => true)

/-- C7's failure condition, as claimed: record absent or unparseable,
`players` missing / not a sequence / empty, or some player invalid. -/
def claimedBadRecord : Option JVal → Bool
  | none => true
  | some g =>
    match getField g "players" with
    | some (.arr ps) => decide (ps.length < 1) || ps.any claimedBadPlayer
    | _ => true

/-- The actual failure condition of `tryLoad`, stated declaratively (used by
the amended C7). -/
def badScoreEntry (e : String × JVal) : Bool :=
  (jsParseInt e.1).isNone || jsIsNaN e.2

/-- A player record `tryLoad` rejects. -/
def badPlayer (p : JVal) : Bool :=
  !(match getField p "name" with
    | some (.str s) => decide (s ≠ "")
    | _ => false)
  || (match getField p "roundScores" with
      | some rs =>
        !(jsTruthy rs && typeofObject rs) || (jsEntries rs).any badScoreEntry
      | none => true)

/-- A stored record `tryLoad` rejects. -/
def badRecord : Option JVal → Bool
  | none => true
  | some g =>
    match getField g "players" with
    | some (.arr ps) =>
      decide (ps.length < 1)
      || !(match getField g "roundCount" with
          | some (.num _) => true
          | _ => false)
      || ps.any badPlayer
    | _ => true

/-! ## Basic lemmas about the game model -/

theorem totalScore_foldl_some (l : List (Option Int)) (p : Int) :
    l.foldl
        (fun previous current =>
          match current with
          | none => previous
          | some v =>
            match previous with
            | none => some v
            | some q => some (q + v))
        (some p)
      = some (p + (definedTotals l).sum) := by
  induction l generalizing p with
  | nil => simp [definedTotals]
  | cons v rest ih =>
    cases v with
    | none => simpa [definedTotals] using ih p
    | some x =>
      simp only [List.foldl_cons, definedTotals, List.filterMap_cons, id]
      rw [ih (p + x)]
      simp [definedTotals, add_assoc]

theorem modifyPlayers_length (pc rc : ℕ) (ps : List Player) :
    (modifyPlayers pc rc ps).length = pc := by
  simp [modifyPlayers]

theorem modifyPlayers_get? (pc rc : ℕ) (ps : List Player) (i : ℕ) :
    (modifyPlayers pc rc ps).get? i =
      if i < pc then some (truncScores rc (ps.getD i (mkDefaultPlayer i)))
      else none := by
  by_cases h : i < pc
  · simp [modifyPlayers, List.get?_eq_getElem?, List.getElem?_map,
      List.getElem?_range h, h]
  · have hr : (List.range pc)[i]? = none := by
      rw [List.getElem?_eq_none]; simpa using Nat.le_of_not_lt h
    simp [modifyPlayers, List.get?_eq_getElem?, List.getElem?_map, hr, h]

theorem jsArraySetAny_length (l : List (Option Int)) (i : ℕ) (v : Option Int) :
    (jsArraySetAny l i v).length = max l.length (i + 1) := by
  unfold jsArraySetAny
  by_cases h : i < l.length
  · simp [h]; omega
  · simp [h]; omega

theorem jsArraySetAny_getD (l : List (Option Int)) (i : ℕ) (v : Option Int)
    (j : ℕ) :
    (jsArraySetAny l i v).getD j none =
      if j = i then v else l.getD j none := by
  unfold jsArraySetAny
  by_cases h : i < l.length
  · simp only [if_pos h, List.getD_eq_getElem?_getD]
    by_cases hji : j = i
    · subst hji; simp [List.getElem?_set_self, h]
    · simp [List.getElem?_set_ne (by omega : i ≠ j), hji]
  · simp only [if_neg h, List.getD_eq_getElem?_getD]
    by_cases hji : j = i
    · subst hji
      rw [List.append_assoc, List.getElem?_append_right (by omega),
        List.getElem?_append_right (by simp [List.length_replicate])]
      simp [List.length_replicate]
    · simp only [if_neg hji]
      by_cases hjl : j < l.length
      · rw [List.append_assoc, List.getElem?_append_left hjl]
      · have hr : l[j]? = none := by rw [List.getElem?_eq_none]; omega
        rw [List.append_assoc, List.getElem?_append_right (by omega), hr]
        rcases Nat.lt_or_ge j i with hji2 | hji2
        · rw [List.getElem?_append_left
            (by simp [List.length_replicate]; omega)]
          simp only [List.getElem?_replicate]
          by_cases hc : j - l.length < i - l.length <;> simp [hc]
        · rw [List.getElem?_append_right
            (by simp [List.length_replicate]; omega)]
          rw [List.getElem?_eq_none (by simp [List.length_replicate]; omega)]

theorem modifyPlayers_getD (pc rc : ℕ) (ps : List Player) (i : ℕ) (d : Player) :
    (modifyPlayers pc rc ps).getD i d =
      if i < pc then truncScores rc (ps.getD i (mkDefaultPlayer i)) else d := by
  rw [List.getD_eq_getElem?_getD, ← List.get?_eq_getElem?, modifyPlayers_get?]
  by_cases h : i < pc <;> simp [h]

theorem modifyPlayers_scores_le (pc rc : ℕ) (ps : List Player) :
    ∀ p ∈ modifyPlayers pc rc ps, p.roundScores.length ≤ rc := by
  intro p hp
  simp only [modifyPlayers, List.mem_map, List.mem_range] at hp
  obtain ⟨i, hi, rfl⟩ := hp
  simp [truncScores, List.length_take]

theorem gameInv_mkGame (rc pc : ℕ) (ps : List Player) :
    GameInv (mkGame rc pc ps) :=
  ⟨modifyPlayers_length pc rc ps, modifyPlayers_scores_le pc rc ps⟩

theorem gameInv_setRoundCount (g : Game) (n : ℕ) :
    GameInv (g.setRoundCount n) :=
  ⟨modifyPlayers_length g.playerCount n g.players,
    modifyPlayers_scores_le g.playerCount n g.players⟩

theorem gameInv_setPlayerCount (g : Game) (n : ℕ) :
    GameInv (g.setPlayerCount n) :=
  ⟨modifyPlayers_length n g.roundCount g.players,
    modifyPlayers_scores_le n g.roundCount g.players⟩

theorem getD_mem_of_lt (ps : List Player) (p : ℕ) (d : Player)
    (h : p < ps.length) : ps.getD p d ∈ ps := by
  have he : ps.getD p d = ps[p] := by
    simp [List.getD_eq_getElem?_getD, List.getElem?_eq_getElem h]
  rw [he]
  exact List.getElem_mem h

theorem gameInv_applyMutation (g : Game) (m : GameMutation) (hg : GameInv g) :
    GameInv (applyMutation g m) := by
  obtain ⟨hlen, hsc⟩ := hg
  cases m with
  | setRound n => exact gameInv_setRoundCount g n
  | setPlayers n => exact gameInv_setPlayerCount g n
  | setScore p r v =>
    simp only [applyMutation]
    by_cases h : p < g.playerCount ∧ r < g.roundCount
    · rw [if_pos h]
      have hp : p < g.players.length := by omega
      have hmem : g.players.getD p default ∈ g.players :=
        getD_mem_of_lt g.players p default hp
      have hbound : (g.players.getD p default).roundScores.length ≤ g.roundCount :=
        hsc _ hmem
      refine ⟨by simpa [Game.setScore] using hlen, ?_⟩
      intro q hq
      simp only [Game.setScore] at hq
      rcases List.mem_or_eq_of_mem_set hq with hq2 | rfl
      · exact hsc q hq2
      · cases v with
        | some x =>
          show (jsArraySet (g.players.getD p default).roundScores r x).length ≤
            g.roundCount
          rw [jsArraySet, jsArraySetAny_length]
          omega
        | none =>
          show (jsArrayDelete (g.players.getD p default).roundScores r).length ≤
            g.roundCount
          unfold jsArrayDelete
          by_cases hr : r < (g.players.getD p default).roundScores.length
          · rw [if_pos hr, List.length_set]; exact hbound
          · rw [if_neg hr]; exact hbound
    · rw [if_neg h]; exact ⟨hlen, hsc⟩
  | rename p s =>
    simp only [applyMutation]
    by_cases h : p < g.playerCount
    · rw [if_pos h]
      have hp : p < g.players.length := by omega
      refine ⟨by simpa [Game.renamePlayer] using hlen, ?_⟩
      intro q hq
      simp only [Game.renamePlayer] at hq
      rcases List.mem_or_eq_of_mem_set hq with hq2 | rfl
      · exact hsc q hq2
      · show (g.players.getD p default).roundScores.length ≤ g.roundCount
        exact hsc _ (getD_mem_of_lt g.players p default hp)
    · rw [if_neg h]; exact ⟨hlen, hsc⟩
  | clear =>
    constructor
    · show (g.players.map _).length = g.playerCount
      rw [List.length_map]; exact hlen
    · intro q hq
      simp only [applyMutation, Game.clearPlayerScores, List.mem_map] at hq
      obtain ⟨q0, hq0, rfl⟩ := hq
      exact Nat.zero_le _

/-! ## Claim theorems -/

/-- C3, counterexample: the claim asserts that after any mutation every
player's concrete score array has length equal to `roundCount`; after a
`clear` on the default 7×4 game, player 0's array is the empty array while
`roundCount` is 7. -/
theorem score_array_length_counterexample :
    ¬ ∀ p ∈ (applyMutation (mkGame 7 4 []) GameMutation.clear).players,
        p.roundScores.length =
          (applyMutation (mkGame 7 4 []) GameMutation.clear).roundCount := by
  decide

/-- C3 (amended): after any sequence of mutations of a constructed game, the
players sequence has length exactly `playerCount`, and every player's
concrete score array has length at most `roundCount` (so each of the
`roundCount` observable slots is a stored value or an unset hole; a slot
beyond the array reads as unset).  The stronger literal claim — concrete
length always equal to `roundCount` — fails because fresh players start with
the empty array. -/
theorem game_inv_after_mutations (rc pc : ℕ) (ps : List Player)
    (ms : List GameMutation) :
    GameInv (ms.foldl applyMutation (mkGame rc pc ps)) := by
  have h0 : GameInv (mkGame rc pc ps) := gameInv_mkGame rc pc ps
  revert h0
  generalize mkGame rc pc ps = g
  induction ms generalizing g with
  | nil => exact fun h => h
  | cons m rest ih =>
    intro hg
    exact ih (applyMutation g m) (gameInv_applyMutation g m hg)

/-- C5: a player's total score is the sum of the set slots, and is undefined
exactly when no slot is set (an all-unset score array yields `none`, not
`some 0`). -/
theorem totalScore_sum_of_set_slots (scores : List (Option Int)) :
    totalScore scores =
      if definedTotals scores = [] then none
      else some (definedTotals scores).sum := by
  induction scores with
  | nil => simp [totalScore, definedTotals]
  | cons v rest ih =>
    cases v with
    | none =>
      have h1 : totalScore (none :: rest) = totalScore rest := by
        simp [totalScore]
      have h2 : definedTotals (none :: rest) = definedTotals rest := by
        simp [definedTotals]
      rw [h1, h2, ih]
    | some x =>
      have h1 : totalScore (some x :: rest) = some (x + (definedTotals rest).sum) := by
        simp only [totalScore, List.foldl_cons]
        exact totalScore_foldl_some rest x
      have h2 : definedTotals (some x :: rest) = x :: definedTotals rest := by
        simp [definedTotals]
      rw [h1, h2]
      simp

/-- C8: `clearPlayerScores` leaves every player with an undefined total and
changes neither the counts nor any name. -/
theorem clearScores_spec (g : Game) :
    (∀ p ∈ g.clearPlayerScores.players, totalScore p.roundScores = none)
    ∧ g.clearPlayerScores.roundCount = g.roundCount
    ∧ g.clearPlayerScores.playerCount = g.playerCount
    ∧ g.clearPlayerScores.players.map Player.name = g.players.map Player.name := by
  refine ⟨?_, rfl, rfl, ?_⟩
  · intro p hp
    simp only [Game.clearPlayerScores, List.mem_map] at hp
    obtain ⟨q, hq, rfl⟩ := hp
    rfl
  · simp only [Game.clearPlayerScores, List.map_map]
    rfl

/-- C2, counterexample: on the totals `[3, undefined, 3]` the code returns
all-false flags — in particular index 0 is not marked as highest, contrary
to the claim's "highest on 0 and 2 only". -/
theorem extremes_3u3_counterexample :
    calculateHighestAndLowestOfTotals [some 3, none, some 3] =
        [⟨false, false⟩, ⟨false, false⟩, ⟨false, false⟩]
      ∧ ¬ ((calculateHighestAndLowestOfTotals [some 3, none, some 3]).getD 0
            default).hasHighestTotalScore := by
  decide

/-- C2 (amended): for the totals `[3, undefined, 3]` the extremes
calculation sets no flag at all: the highest set `{0, 2}` itself covers all
players with a defined total, so the same degenerate rule that suppresses
the lowest flags suppresses the highest ones too. -/
theorem extremes_3u3_all_false :
    calculateHighestAndLowestOfTotals [some 3, none, some 3] =
      [⟨false, false⟩, ⟨false, false⟩, ⟨false, false⟩] := by
  decide

/-- C9: shrinking a 4-player game to 2 players and growing back to 4 puts
fresh default players at indices 2 and 3 — named "player 3" and "player 4",
with every observable score slot unset (their concrete array is the empty
array, so all `roundCount` slots read as unset) — regardless of what the
removed originals contained. -/
theorem shrink_then_grow_gives_fresh_defaults (g : Game)
    (h4 : g.playerCount = 4) :
    ((g.setPlayerCount 2).setPlayerCount 4).players.get? 2 =
        some (mkDefaultPlayer 2)
    ∧ ((g.setPlayerCount 2).setPlayerCount 4).players.get? 3 =
        some (mkDefaultPlayer 3)
    ∧ (mkDefaultPlayer 2).name = "player 3"
    ∧ (mkDefaultPlayer 3).name = "player 4"
    ∧ ∀ j, getSlot ((g.setPlayerCount 2).setPlayerCount 4) 2 j = none
        ∧ getSlot ((g.setPlayerCount 2).setPlayerCount 4) 3 j = none := by
  have hlen : (g.setPlayerCount 2).players.length = 2 :=
    modifyPlayers_length 2 g.roundCount g.players
  have hget : ∀ i, 2 ≤ i → i < 4 →
      ((g.setPlayerCount 2).setPlayerCount 4).players.get? i =
        some (mkDefaultPlayer i) := by
    intro i h2 hi
    show (modifyPlayers 4 (g.setPlayerCount 2).roundCount
        (g.setPlayerCount 2).players).get? i = some (mkDefaultPlayer i)
    rw [modifyPlayers_get?, if_pos hi]
    have hd : (g.setPlayerCount 2).players.getD i (mkDefaultPlayer i) =
        mkDefaultPlayer i := by
      rw [List.getD_eq_getElem?_getD, List.getElem?_eq_none (by omega)]
      rfl
    rw [hd]
    simp [truncScores, mkDefaultPlayer]
  have hgetD : ∀ i, 2 ≤ i → i < 4 →
      ((g.setPlayerCount 2).setPlayerCount 4).players.getD i default =
        mkDefaultPlayer i := by
    intro i h2 hi
    rw [List.getD_eq_getElem?_getD, ← List.get?_eq_getElem?, hget i h2 hi]
    rfl
  refine ⟨hget 2 (by omega) (by omega), hget 3 (by omega) (by omega), rfl, rfl, ?_⟩
  intro j
  constructor
  · show (((((g.setPlayerCount 2).setPlayerCount 4).players.getD 2
      default)).roundScores).getD j none = none
    rw [hgetD 2 (by omega) (by omega)]
    rfl
  · show (((((g.setPlayerCount 2).setPlayerCount 4).players.getD 3
      default)).roundScores).getD j none = none
    rw [hgetD 3 (by omega) (by omega)]
    rfl

/-- Witness for C9 at the default game. -/
theorem shrink_then_grow_witness :
    (mkGame 7 4 []).playerCount = 4
    ∧ (((mkGame 7 4 []).setPlayerCount 2).setPlayerCount 4).players.get? 2 =
        some (mkDefaultPlayer 2) :=
  ⟨rfl, (shrink_then_grow_gives_fresh_defaults (mkGame 7 4 []) rfl).1⟩

theorem truncScores_eq_of_le (rc : ℕ) (p : Player)
    (h : p.roundScores.length ≤ rc) : truncScores rc p = p := by
  cases p with
  | mk n s => simp [truncScores, List.take_of_length_le h]

theorem getD_eq_getElem_of_lt {α : Type _} (ps : List α) (p : ℕ) (d : α)
    (h : p < ps.length) : ps.getD p d = ps[p] := by
  simp [List.getD_eq_getElem?_getD, List.getElem?_eq_getElem h]

theorem getD_eq_default_of_le {α : Type _} (ps : List α) (p : ℕ) (d : α)
    (h : ps.length ≤ p) : ps.getD p d = d := by
  simp [List.getD_eq_getElem?_getD, List.getElem?_eq_none h]

theorem getSlot_setRoundCount_lt (g : Game) (hg : GameInv g) (n p j : ℕ)
    (hj : j < n) : getSlot (g.setRoundCount n) p j = getSlot g p j := by
  obtain ⟨hlen, hsc⟩ := hg
  show ((modifyPlayers g.playerCount n g.players).getD p default).roundScores.getD j none
    = ((g.players.getD p default).roundScores).getD j none
  rw [modifyPlayers_getD]
  by_cases hp : p < g.playerCount
  · rw [if_pos hp]
    have hpl : p < g.players.length := by omega
    rw [getD_eq_getElem_of_lt _ _ _ hpl, getD_eq_getElem_of_lt _ _ _ hpl]
    show (g.players[p].roundScores.take n).getD j none = _
    rw [List.getD_eq_getElem?_getD, List.getElem?_take, if_pos hj,
      ← List.getD_eq_getElem?_getD]
  · rw [if_neg hp, getD_eq_default_of_le _ _ _ (by omega : g.players.length ≤ p)]

theorem getName_setRoundCount (g : Game) (hg : GameInv g) (n p : ℕ) :
    getName (g.setRoundCount n) p = getName g p := by
  obtain ⟨hlen, hsc⟩ := hg
  show ((modifyPlayers g.playerCount n g.players).getD p (mkDefaultPlayer p)).name
    = (g.players.getD p (mkDefaultPlayer p)).name
  rw [modifyPlayers_getD]
  by_cases hp : p < g.playerCount
  · rw [if_pos hp]
    have hpl : p < g.players.length := by omega
    rw [getD_eq_getElem_of_lt _ _ _ hpl]
    rfl
  · rw [if_neg hp, getD_eq_default_of_le _ _ _ (by omega : g.players.length ≤ p)]

theorem getSlot_setRoundCount_grow (g : Game) (hg : GameInv g) (n : ℕ)
    (hn : g.roundCount ≤ n) (p j : ℕ) :
    getSlot (g.setRoundCount n) p j = getSlot g p j := by
  obtain ⟨hlen, hsc⟩ := hg
  show ((modifyPlayers g.playerCount n g.players).getD p default).roundScores.getD j none
    = ((g.players.getD p default).roundScores).getD j none
  rw [modifyPlayers_getD]
  by_cases hp : p < g.playerCount
  · rw [if_pos hp]
    have hpl : p < g.players.length := by omega
    rw [getD_eq_getElem_of_lt _ _ _ hpl, getD_eq_getElem_of_lt _ _ _ hpl,
      truncScores_eq_of_le n _ (le_trans (hsc _ (List.getElem_mem hpl)) hn)]
  · rw [if_neg hp, getD_eq_default_of_le _ _ _ (by omega : g.players.length ≤ p)]

theorem foldl_setRoundCount_slots (ns : List ℕ) (m : ℕ)
    (hm : ∀ n ∈ ns, m ≤ n) :
    ∀ g, GameInv g → ∀ p j, j < m →
      getSlot (ns.foldl Game.setRoundCount g) p j = getSlot g p j := by
  induction ns with
  | nil => intro g hg p j hj; rfl
  | cons n rest ih =>
    intro g hg p j hj
    have hmn : m ≤ n := hm n (by simp)
    have hrest : ∀ x ∈ rest, m ≤ x := fun x hx => hm x (by simp [hx])
    have h1 := ih hrest (g.setRoundCount n) (gameInv_setRoundCount g n) p j hj
    have h2 := getSlot_setRoundCount_lt g ⟨hg.1, hg.2⟩ n p j (lt_of_lt_of_le hj hmn)
    show getSlot (rest.foldl Game.setRoundCount (g.setRoundCount n)) p j = _
    rw [h1, h2]

theorem foldl_setRoundCount_names (ns : List ℕ) :
    ∀ g, GameInv g → ∀ p,
      getName (ns.foldl Game.setRoundCount g) p = getName g p := by
  induction ns with
  | nil => intro g hg p; rfl
  | cons n rest ih =>
    intro g hg p
    have h1 := ih (g.setRoundCount n) (gameInv_setRoundCount g n) p
    have h2 := getName_setRoundCount g hg n p
    show getName (rest.foldl Game.setRoundCount (g.setRoundCount n)) p = _
    rw [h1, h2]

theorem setPlayerCount_grow (g : Game) (hg : GameInv g) (n : ℕ)
    (hn : g.playerCount ≤ n) :
    (∀ p, p < g.playerCount →
      (g.setPlayerCount n).players.get? p = g.players.get? p)
    ∧ ∀ p, g.playerCount ≤ p → p < n →
      (g.setPlayerCount n).players.get? p = some (mkDefaultPlayer p) := by
  obtain ⟨hlen, hsc⟩ := hg
  constructor
  · intro p hp
    show (modifyPlayers n g.roundCount g.players).get? p = _
    rw [modifyPlayers_get?, if_pos (by omega)]
    have hpl : p < g.players.length := by omega
    rw [getD_eq_getElem_of_lt _ _ _ hpl,
      truncScores_eq_of_le _ _ (hsc _ (List.getElem_mem hpl)),
      List.get?_eq_getElem?, List.getElem?_eq_getElem hpl]
  · intro p hp hpn
    show (modifyPlayers n g.roundCount g.players).get? p = _
    rw [modifyPlayers_get?, if_pos hpn,
      getD_eq_default_of_le _ _ _ (by omega : g.players.length ≤ p)]
    simp [truncScores, mkDefaultPlayer]

/-- C4: on a constructed game (one satisfying the constructor invariant),
(1) any sequence of round-count resizes preserves every score slot below the
minimum of the applied counts; (2) round-count resizes never change a name;
(3) growing the round count preserves every slot verbatim; (4) growing the
player count preserves the existing player records verbatim and appends
fresh default-named players (whose slots are all unset). -/
theorem grow_and_resize_frame (g : Game) (hg : GameInv g) (ns : List ℕ)
    (m : ℕ) (hm : ∀ n ∈ ns, m ≤ n) :
    (∀ p j, j < m →
      getSlot (ns.foldl Game.setRoundCount g) p j = getSlot g p j)
    ∧ (∀ p, getName (ns.foldl Game.setRoundCount g) p = getName g p)
    ∧ (∀ n, g.roundCount ≤ n → ∀ p j,
        getSlot (g.setRoundCount n) p j = getSlot g p j)
    ∧ ∀ n, g.playerCount ≤ n →
        (∀ p, p < g.playerCount →
          (g.setPlayerCount n).players.get? p = g.players.get? p)
        ∧ ∀ p, g.playerCount ≤ p → p < n →
          (g.setPlayerCount n).players.get? p = some (mkDefaultPlayer p) :=
  ⟨foldl_setRoundCount_slots ns m hm g hg,
    foldl_setRoundCount_names ns g hg,
    fun n hn => getSlot_setRoundCount_grow g hg n hn,
    fun n hn => setPlayerCount_grow g hg n hn⟩

/-- Witness for C4: a concrete 2-round game resized to 3 rounds and back to
1 keeps slot 0. -/
theorem grow_and_resize_frame_witness :
    GameInv (mkGame 2 1 []) ∧ (∀ n ∈ [3, 1], 1 ≤ n)
    ∧ getSlot ([3, 1].foldl Game.setRoundCount (mkGame 2 1 [])) 0 0 =
        getSlot (mkGame 2 1 []) 0 0 :=
  ⟨by decide, by decide,
    (grow_and_resize_frame (mkGame 2 1 []) (by decide) [3, 1] 1
      (by decide)).1 0 0 (by decide)⟩

/-! ## Characterisation of the extreme-value scan -/

theorem runLow_le (vs : List (Option Int)) : ∀ c, runLow c vs ≤ c := by
  induction vs with
  | nil => intro c; exact le_refl c
  | cons v vs ih =>
    intro c
    show runLow (match v with | some x => if x < c then x else c | none => c) vs ≤ c
    refine le_trans (ih _) ?_
    cases v with
    | none => exact le_refl c
    | some x =>
      show (if x < c then x else c) ≤ c
      by_cases h : x < c
      · rw [if_pos h]; omega
      · rw [if_neg h]

theorem runHigh_ge (vs : List (Option Int)) : ∀ c, c ≤ runHigh c vs := by
  induction vs with
  | nil => intro c; exact le_refl c
  | cons v vs ih =>
    intro c
    show c ≤ runHigh (match v with | some x => if c < x then x else c | none => c) vs
    refine le_trans ?_ (ih _)
    cases v with
    | none => exact le_refl c
    | some x =>
      show c ≤ (if c < x then x else c)
      by_cases h : c < x
      · rw [if_pos h]; omega
      · rw [if_neg h]

theorem runLow_le_defined (vs : List (Option Int)) :
    ∀ c x, some x ∈ vs → runLow c vs ≤ x := by
  induction vs with
  | nil => intro c x h; simp at h
  | cons v vs ih =>
    intro c x h
    rcases List.mem_cons.1 h with h1 | h2
    · subst h1
      show runLow (if x < c then x else c) vs ≤ x
      refine le_trans (runLow_le vs _) ?_
      by_cases hx : x < c
      · rw [if_pos hx]
      · rw [if_neg hx]; omega
    · exact ih _ x h2

theorem runHigh_ge_defined (vs : List (Option Int)) :
    ∀ c x, some x ∈ vs → x ≤ runHigh c vs := by
  induction vs with
  | nil => intro c x h; simp at h
  | cons v vs ih =>
    intro c x h
    rcases List.mem_cons.1 h with h1 | h2
    · subst h1
      show x ≤ runHigh (if c < x then x else c) vs
      refine le_trans ?_ (runHigh_ge vs _)
      by_cases hx : c < x
      · rw [if_pos hx]
      · rw [if_neg hx]; omega
    · exact ih _ x h2

theorem runLow_eq_or_mem (vs : List (Option Int)) :
    ∀ c, runLow c vs = c ∨ some (runLow c vs) ∈ vs := by
  induction vs with
  | nil => intro c; exact Or.inl rfl
  | cons v vs ih =>
    intro c
    cases v with
    | none =>
      rcases ih c with h | h
      · exact Or.inl h
      · exact Or.inr (List.mem_cons_of_mem _ h)
    | some x =>
      by_cases hx : x < c
      · have he : runLow c (some x :: vs) = runLow x vs := by
          show runLow (if x < c then x else c) vs = runLow x vs
          rw [if_pos hx]
        rcases ih x with h | h
        · rw [he, h]; exact Or.inr (List.mem_cons_self _ _)
        · rw [he]; exact Or.inr (List.mem_cons_of_mem _ h)
      · have he : runLow c (some x :: vs) = runLow c vs := by
          show runLow (if x < c then x else c) vs = runLow c vs
          rw [if_neg hx]
        rcases ih c with h | h
        · rw [he, h]; exact Or.inl rfl
        · rw [he]; exact Or.inr (List.mem_cons_of_mem _ h)

theorem runHigh_eq_or_mem (vs : List (Option Int)) :
    ∀ c, runHigh c vs = c ∨ some (runHigh c vs) ∈ vs := by
  induction vs with
  | nil => intro c; exact Or.inl rfl
  | cons v vs ih =>
    intro c
    cases v with
    | none =>
      rcases ih c with h | h
      · exact Or.inl h
      · exact Or.inr (List.mem_cons_of_mem _ h)
    | some x =>
      by_cases hx : c < x
      · have he : runHigh c (some x :: vs) = runHigh x vs := by
          show runHigh (if c < x then x else c) vs = runHigh x vs
          rw [if_pos hx]
        rcases ih x with h | h
        · rw [he, h]; exact Or.inr (List.mem_cons_self _ _)
        · rw [he]; exact Or.inr (List.mem_cons_of_mem _ h)
      · have he : runHigh c (some x :: vs) = runHigh c vs := by
          show runHigh (if c < x then x else c) vs = runHigh c vs
          rw [if_neg hx]
        rcases ih c with h | h
        · rw [he, h]; exact Or.inl rfl
        · rw [he]; exact Or.inr (List.mem_cons_of_mem _ h)

theorem mem_occIdx (x : Int) (vs : List (Option Int)) :
    ∀ (i j : ℕ),
      j ∈ occIdx x i vs ↔ ∃ k, vs.get? k = some (some x) ∧ j = i + k := by
  induction vs with
  | nil => intro i j; simp [occIdx]
  | cons v vs ih =>
    intro i j
    simp only [occIdx, List.mem_append]
    constructor
    · rintro (h1 | h2)
      · by_cases hv : v = some x
        · rw [if_pos hv] at h1
          simp only [List.mem_singleton] at h1
          subst h1
          exact ⟨0, by simp [hv], by omega⟩
        · rw [if_neg hv] at h1
          simp at h1
      · obtain ⟨k, hk, rfl⟩ := (ih (i + 1) j).1 h2
        exact ⟨k + 1, by simpa using hk, by omega⟩
    · rintro ⟨k, hk, rfl⟩
      cases k with
      | zero =>
        left
        simp only [List.get?_cons_zero, Option.some_inj] at hk
        simp [hk]
      | succ k =>
        right
        refine (ih (i + 1) _).2 ⟨k, by simpa using hk, by omega⟩

theorem itemIndexesLoop_cons (isExt : Option Int → Option Int → Bool)
    (cur : Option Int) (acc : List ℕ) (i : ℕ) (v : Option Int)
    (vs : List (Option Int)) :
    itemIndexesLoop isExt cur acc i (v :: vs) =
      itemIndexesLoop isExt (if isExt cur v then v else cur)
        (if (if isExt cur v then v else cur) = v
          then (if isExt cur v then ([] : List ℕ) else acc) ++ [i]
          else (if isExt cur v then ([] : List ℕ) else acc))
        (i + 1) vs := rfl

theorem itemIndexesLoop_low (vs : List (Option Int)) :
    ∀ (c : Int) (acc : List ℕ) (i : ℕ),
      itemIndexesLoop isLowerExtreme (some c) acc i vs =
        (if runLow c vs = c then acc else []) ++ occIdx (runLow c vs) i vs := by
  induction vs with
  | nil => intro c acc i; simp [itemIndexesLoop, runLow, occIdx]
  | cons v vs ih =>
    intro c acc i
    cases v with
    | none =>
      have h1 : itemIndexesLoop isLowerExtreme (some c) acc i (none :: vs) =
          itemIndexesLoop isLowerExtreme (some c) acc (i + 1) vs := rfl
      have h2 : runLow c (none :: vs) = runLow c vs := rfl
      have h3 : occIdx (runLow c vs) i (none :: vs) =
          occIdx (runLow c vs) (i + 1) vs := by
        show (if (none : Option Int) = some (runLow c vs) then [i] else []) ++ _ = _
        rw [if_neg (by simp)]
        rfl
      rw [h1, h2, h3]
      exact ih c acc (i + 1)
    | some x =>
      have hocc : ∀ f : Int, occIdx f i (some x :: vs) =
          (if x = f then [i] else []) ++ occIdx f (i + 1) vs := by
        intro f
        show (if some x = some f then [i] else []) ++ _ = _
        by_cases hxf : x = f
        · rw [if_pos (by rw [hxf]), if_pos hxf]
        · rw [if_neg (by simpa using hxf), if_neg hxf]
      by_cases hx : x < c
      · have hext : isLowerExtreme (some c) (some x) = true := by
          simp [isLowerExtreme, hx]
        rw [itemIndexesLoop_cons, hext]
        simp only [if_true]
        have hrun : runLow c (some x :: vs) = runLow x vs := by
          show runLow (if x < c then x else c) vs = runLow x vs
          rw [if_pos hx]
        rw [ih x ([] ++ [i]) (i + 1), hrun, hocc]
        have hfc : runLow x vs ≠ c := by
          have := runLow_le vs x; omega
        rw [if_neg hfc]
        by_cases hfx : runLow x vs = x
        · rw [if_pos hfx, if_pos (by omega : x = runLow x vs)]
          simp
        · rw [if_neg hfx, if_neg (by omega : ¬ x = runLow x vs)]
          simp
      · have hext : isLowerExtreme (some c) (some x) = false := by
          simp [isLowerExtreme, hx]
        rw [itemIndexesLoop_cons, hext]
        simp only [Bool.false_eq_true, if_false]
        have hrun : runLow c (some x :: vs) = runLow c vs := by
          show runLow (if x < c then x else c) vs = runLow c vs
          rw [if_neg hx]
        rw [hrun, hocc]
        by_cases hxc : (some c : Option Int) = some x
        · have hxc2 : x = c := by simpa [eq_comm] using hxc
          rw [if_pos hxc]
          rw [ih c (acc ++ [i]) (i + 1)]
          by_cases hf : runLow c vs = c
          · rw [if_pos hf, if_pos hf, if_pos (by omega : x = runLow c vs)]
            simp
          · rw [if_neg hf, if_neg hf, if_neg (by omega : ¬ x = runLow c vs)]
            simp
        · have hxc2 : ¬ x = c := fun h => hxc (by rw [h])
          rw [if_neg hxc]
          rw [ih c acc (i + 1)]
          have hfx : ¬ x = runLow c vs := by
            have := runLow_le vs c; omega
          rw [if_neg hfx]
          simp

theorem itemIndexesLoop_high (vs : List (Option Int)) :
    ∀ (c : Int) (acc : List ℕ) (i : ℕ),
      itemIndexesLoop isHigherExtreme (some c) acc i vs =
        (if runHigh c vs = c then acc else []) ++ occIdx (runHigh c vs) i vs := by
  induction vs with
  | nil => intro c acc i; simp [itemIndexesLoop, runHigh, occIdx]
  | cons v vs ih =>
    intro c acc i
    cases v with
    | none =>
      have h1 : itemIndexesLoop isHigherExtreme (some c) acc i (none :: vs) =
          itemIndexesLoop isHigherExtreme (some c) acc (i + 1) vs := rfl
      have h2 : runHigh c (none :: vs) = runHigh c vs := rfl
      have h3 : occIdx (runHigh c vs) i (none :: vs) =
          occIdx (runHigh c vs) (i + 1) vs := by
        show (if (none : Option Int) = some (runHigh c vs) then [i] else []) ++ _ = _
        rw [if_neg (by simp)]
        rfl
      rw [h1, h2, h3]
      exact ih c acc (i + 1)
    | some x =>
      have hocc : ∀ f : Int, occIdx f i (some x :: vs) =
          (if x = f then [i] else []) ++ occIdx f (i + 1) vs := by
        intro f
        show (if some x = some f then [i] else []) ++ _ = _
        by_cases hxf : x = f
        · rw [if_pos (by rw [hxf]), if_pos hxf]
        · rw [if_neg (by simpa using hxf), if_neg hxf]
      by_cases hx : c < x
      · have hext : isHigherExtreme (some c) (some x) = true := by
          simp [isHigherExtreme, hx]
        rw [itemIndexesLoop_cons, hext]
        simp only [if_true]
        have hrun : runHigh c (some x :: vs) = runHigh x vs := by
          show runHigh (if c < x then x else c) vs = runHigh x vs
          rw [if_pos hx]
        rw [ih x ([] ++ [i]) (i + 1), hrun, hocc]
        have hfc : runHigh x vs ≠ c := by
          have := runHigh_ge vs x; omega
        rw [if_neg hfc]
        by_cases hfx : runHigh x vs = x
        · rw [if_pos hfx, if_pos (by omega : x = runHigh x vs)]
          simp
        · rw [if_neg hfx, if_neg (by omega : ¬ x = runHigh x vs)]
          simp
      · have hext : isHigherExtreme (some c) (some x) = false := by
          simp [isHigherExtreme, hx]
        rw [itemIndexesLoop_cons, hext]
        simp only [Bool.false_eq_true, if_false]
        have hrun : runHigh c (some x :: vs) = runHigh c vs := by
          show runHigh (if c < x then x else c) vs = runHigh c vs
          rw [if_neg hx]
        rw [hrun, hocc]
        by_cases hxc : (some c : Option Int) = some x
        · have hxc2 : x = c := by simpa [eq_comm] using hxc
          rw [if_pos hxc]
          rw [ih c (acc ++ [i]) (i + 1)]
          by_cases hf : runHigh c vs = c
          · rw [if_pos hf, if_pos hf, if_pos (by omega : x = runHigh c vs)]
            simp
          · rw [if_neg hf, if_neg hf, if_neg (by omega : ¬ x = runHigh c vs)]
            simp
        · have hxc2 : ¬ x = c := fun h => hxc (by rw [h])
          rw [if_neg hxc]
          rw [ih c acc (i + 1)]
          have hfx : ¬ x = runHigh c vs := by
            have := runHigh_ge vs c; omega
          rw [if_neg hfx]
          simp

/-- The lowest scan returns exactly the positions holding its final current
value. -/
theorem lowestIndexes_eq (vs : List (Option Int)) :
    itemIndexesWithExtremeValues vs (some MAX_SAFE_INTEGER) isLowerExtreme =
      occIdx (runLow MAX_SAFE_INTEGER vs) 0 vs := by
  show itemIndexesLoop isLowerExtreme (some MAX_SAFE_INTEGER) [] 0 vs = _
  rw [itemIndexesLoop_low]
  by_cases h : runLow MAX_SAFE_INTEGER vs = MAX_SAFE_INTEGER
  · rw [if_pos h]; rfl
  · rw [if_neg h]; rfl

/-- The highest scan returns exactly the positions holding its final current
value. -/
theorem highestIndexes_eq (vs : List (Option Int)) :
    itemIndexesWithExtremeValues vs (some MIN_SAFE_INTEGER) isHigherExtreme =
      occIdx (runHigh MIN_SAFE_INTEGER vs) 0 vs := by
  show itemIndexesLoop isHigherExtreme (some MIN_SAFE_INTEGER) [] 0 vs = _
  rw [itemIndexesLoop_high]
  by_cases h : runHigh MIN_SAFE_INTEGER vs = MIN_SAFE_INTEGER
  · rw [if_pos h]; rfl
  · rw [if_neg h]; rfl

theorem mem_occIdx_zero (x : Int) (vs : List (Option Int)) (j : ℕ) :
    j ∈ occIdx x 0 vs ↔ vs.get? j = some (some x) := by
  rw [mem_occIdx]
  constructor
  · rintro ⟨k, hk, rfl⟩
    simpa using hk
  · intro h
    exact ⟨j, h, (Nat.zero_add j).symm⟩

theorem length_occIdx (x : Int) (vs : List (Option Int)) :
    ∀ i, (occIdx x i vs).length =
      vs.countP (fun v => decide (v = some x)) := by
  induction vs with
  | nil => intro i; rfl
  | cons v vs ih =>
    intro i
    show ((if v = some x then [i] else []) ++ occIdx x (i + 1) vs).length = _
    rw [List.length_append, ih (i + 1), List.countP_cons]
    by_cases hv : v = some x
    · rw [if_pos hv, if_pos (by simp [hv])]
      simp [Nat.add_comm]
    · rw [if_neg hv, if_neg (by simp [hv])]
      simp

theorem notUndefinedCount_eq (vs : List (Option Int)) :
    notUndefinedCount vs = vs.countP (fun v => v.isSome) := by
  have haux : ∀ (l : List (Option Int)) (n : ℕ),
      l.foldl
          (fun previous current =>
            match current with
            | some _ => previous + 1
            | none => previous) n
        = n + l.countP (fun v => v.isSome) := by
    intro l
    induction l with
    | nil => intro n; simp
    | cons v l ih =>
      intro n
      cases v with
      | none =>
        show l.foldl _ n = n + List.countP _ (none :: l)
        rw [ih n, List.countP_cons]
        simp
      | some y =>
        show l.foldl _ (n + 1) = n + List.countP _ (some y :: l)
        rw [ih (n + 1), List.countP_cons]
        simp [Nat.add_assoc, Nat.add_comm 1]
  simpa using haux vs 0

theorem countP_eq_countP_iff {α : Type _} (l : List α) (p q : α → Bool)
    (hpq : ∀ a ∈ l, p a = true → q a = true) :
    l.countP p = l.countP q ↔ ∀ a ∈ l, q a = true → p a = true := by
  induction l with
  | nil => simp
  | cons a l ih =>
    have hpq2 : ∀ b ∈ l, p b = true → q b = true :=
      fun b hb => hpq b (List.mem_cons_of_mem a hb)
    have hmono : l.countP p ≤ l.countP q := List.countP_mono_left hpq2
    rw [List.countP_cons, List.countP_cons]
    by_cases hp : p a = true
    · have hq : q a = true := hpq a (List.mem_cons_self a l) hp
      rw [if_pos hp, if_pos hq]
      constructor
      · intro h b hb hqb
        rcases List.mem_cons.1 hb with rfl | hb2
        · exact hp
        · exact (ih hpq2).1 (by omega) b hb2 hqb
      · intro h
        have := (ih hpq2).2 (fun b hb => h b (List.mem_cons_of_mem a hb))
        omega
    · by_cases hq : q a = true
      · rw [if_pos hq, if_neg hp]
        constructor
        · intro h
          omega
        · intro h
          exact absurd (h a (List.mem_cons_self a l) hq) hp
      · rw [if_neg hp, if_neg hq]
        constructor
        · intro h b hb hqb
          rcases List.mem_cons.1 hb with rfl | hb2
          · exact absurd hqb hq
          · exact (ih hpq2).1 (by omega) b hb2 hqb
        · intro h
          have := (ih hpq2).2 (fun b hb => h b (List.mem_cons_of_mem a hb))
          omega

theorem range_all_iff (n : ℕ) (f : ℕ → Bool) :
    (List.range n).all f = true ↔ ∀ i < n, f i = true := by
  rw [List.all_eq_true]
  constructor
  · intro h i hi; exact h i (List.mem_range.2 hi)
  · intro h i hi; exact h i (List.mem_range.1 hi)

theorem isDefinedAt_iff (vs : List (Option Int)) (i : ℕ) :
    isDefinedAt vs i = true ↔ ∃ x, vs.get? i = some (some x) := by
  rw [isDefinedAt]
  cases hv : vs.get? i with
  | none => simp
  | some v => cases v <;> simp

theorem attainsMin_iff_value (vs : List (Option Int)) (hsafe : SafeTotals vs)
    (i : ℕ) :
    attainsMin vs i = true ↔
      vs.get? i = some (some (runLow MAX_SAFE_INTEGER vs)) := by
  constructor
  · intro h
    cases hv : vs.get? i with
    | none => rw [attainsMin, hv] at h; exact absurd h (by simp)
    | some v =>
      cases v with
      | none => rw [attainsMin, hv] at h; exact absurd h (by simp)
      | some x =>
        rw [attainsMin, hv, List.all_eq_true] at h
        have hall : ∀ y ∈ definedTotals vs, x ≤ y := by
          intro y hy; simpa using h y hy
        have hmemv : some x ∈ vs := List.get?_mem hv
        have hxd : x ∈ definedTotals vs :=
          List.mem_filterMap.2 ⟨some x, hmemv, rfl⟩
        have h1 : runLow MAX_SAFE_INTEGER vs ≤ x :=
          runLow_le_defined vs MAX_SAFE_INTEGER x hmemv
        have h2 : x ≤ runLow MAX_SAFE_INTEGER vs := by
          rcases runLow_eq_or_mem vs MAX_SAFE_INTEGER with he | hm
          · rw [he]; exact (hsafe x hxd).2
          · exact hall _ (List.mem_filterMap.2 ⟨_, hm, rfl⟩)
        rw [le_antisymm h2 h1]
  · intro h
    rw [attainsMin, h, List.all_eq_true]
    intro y hy
    obtain ⟨v, hv, hvy⟩ := List.mem_filterMap.1 hy
    have hvy2 : v = some y := by simpa using hvy
    rw [hvy2] at hv
    simpa using runLow_le_defined vs MAX_SAFE_INTEGER y hv

theorem attainsMax_iff_value (vs : List (Option Int)) (hsafe : SafeTotals vs)
    (i : ℕ) :
    attainsMax vs i = true ↔
      vs.get? i = some (some (runHigh MIN_SAFE_INTEGER vs)) := by
  constructor
  · intro h
    cases hv : vs.get? i with
    | none => rw [attainsMax, hv] at h; exact absurd h (by simp)
    | some v =>
      cases v with
      | none => rw [attainsMax, hv] at h; exact absurd h (by simp)
      | some x =>
        rw [attainsMax, hv, List.all_eq_true] at h
        have hall : ∀ y ∈ definedTotals vs, y ≤ x := by
          intro y hy; simpa using h y hy
        have hmemv : some x ∈ vs := List.get?_mem hv
        have hxd : x ∈ definedTotals vs :=
          List.mem_filterMap.2 ⟨some x, hmemv, rfl⟩
        have h1 : x ≤ runHigh MIN_SAFE_INTEGER vs :=
          runHigh_ge_defined vs MIN_SAFE_INTEGER x hmemv
        have h2 : runHigh MIN_SAFE_INTEGER vs ≤ x := by
          rcases runHigh_eq_or_mem vs MIN_SAFE_INTEGER with he | hm
          · rw [he]; exact (hsafe x hxd).1
          · exact hall _ (List.mem_filterMap.2 ⟨_, hm, rfl⟩)
        rw [le_antisymm h1 h2]
  · intro h
    rw [attainsMax, h, List.all_eq_true]
    intro y hy
    obtain ⟨v, hv, hvy⟩ := List.mem_filterMap.1 hy
    have hvy2 : v = some y := by simpa using hvy
    rw [hvy2] at hv
    simpa using runHigh_ge_defined vs MIN_SAFE_INTEGER y hv

theorem forall_value_iff_forall_pos (vs : List (Option Int)) (x : Int) :
    (∀ v ∈ vs, v = some x) ↔ ∀ i < vs.length, vs.get? i = some (some x) := by
  constructor
  · intro h i hi
    cases hv : vs.get? i with
    | none => exact absurd (List.get?_eq_none.1 hv) (by omega)
    | some v => rw [h v (List.get?_mem hv)]
  · intro h v hv
    obtain ⟨i, hi⟩ := List.mem_iff_get?.1 hv
    obtain ⟨hlt, _⟩ := List.get?_eq_some.1 hi
    have h2 := h i hlt
    rw [hi] at h2
    exact Option.some_inj.1 h2

theorem forall_defined_value_iff_pos (vs : List (Option Int)) (x : Int) :
    (∀ v ∈ vs, v.isSome = true → v = some x) ↔
      ∀ i < vs.length, isDefinedAt vs i = true →
        vs.get? i = some (some x) := by
  constructor
  · intro h i hi hd
    obtain ⟨y, hy⟩ := (isDefinedAt_iff vs i).1 hd
    have h2 : some y = some x := h _ (List.get?_mem hy) rfl
    rw [hy, h2]
  · intro h v hv hs
    obtain ⟨i, hi⟩ := List.mem_iff_get?.1 hv
    obtain ⟨hlt, _⟩ := List.get?_eq_some.1 hi
    cases v with
    | none => simp at hs
    | some y =>
      have hd : isDefinedAt vs i = true := (isDefinedAt_iff vs i).2 ⟨y, hi⟩
      have h2 := h i hlt hd
      rw [hi] at h2
      exact Option.some_inj.1 h2

theorem bool_imp_iff (b c : Bool) : (!b || c) = true ↔ (b = true → c = true) := by
  cases b <;> simp

theorem high_covers_all_iff (vs : List (Option Int)) (hsafe : SafeTotals vs) :
    (occIdx (runHigh MIN_SAFE_INTEGER vs) 0 vs).length = vs.length ↔
      ∀ i < vs.length, attainsMax vs i = true := by
  rw [length_occIdx, List.countP_eq_length]
  constructor
  · intro h i hi
    rw [attainsMax_iff_value vs hsafe i]
    exact (forall_value_iff_forall_pos vs _).1
      (fun v hv => by simpa using h v hv) i hi
  · intro h v hv
    simp only [decide_eq_true_eq]
    exact (forall_value_iff_forall_pos vs _).2
      (fun i hi => (attainsMax_iff_value vs hsafe i).1 (h i hi)) v hv

theorem low_covers_all_iff (vs : List (Option Int)) (hsafe : SafeTotals vs) :
    (occIdx (runLow MAX_SAFE_INTEGER vs) 0 vs).length = vs.length ↔
      ∀ i < vs.length, attainsMin vs i = true := by
  rw [length_occIdx, List.countP_eq_length]
  constructor
  · intro h i hi
    rw [attainsMin_iff_value vs hsafe i]
    exact (forall_value_iff_forall_pos vs _).1
      (fun v hv => by simpa using h v hv) i hi
  · intro h v hv
    simp only [decide_eq_true_eq]
    exact (forall_value_iff_forall_pos vs _).2
      (fun i hi => (attainsMin_iff_value vs hsafe i).1 (h i hi)) v hv

theorem high_covers_defined_iff (vs : List (Option Int))
    (hsafe : SafeTotals vs) :
    (occIdx (runHigh MIN_SAFE_INTEGER vs) 0 vs).length = notUndefinedCount vs ↔
      ∀ i < vs.length, isDefinedAt vs i = true → attainsMax vs i = true := by
  rw [length_occIdx, notUndefinedCount_eq,
    countP_eq_countP_iff vs _ _
      (by intro v hv hd; simp only [decide_eq_true_eq] at hd; rw [hd]; rfl)]
  constructor
  · intro h i hi hd
    rw [attainsMax_iff_value vs hsafe i]
    refine (forall_defined_value_iff_pos vs _).1 ?_ i hi hd
    intro v hv hs
    simpa using h v hv hs
  · intro h v hv hs
    simp only [decide_eq_true_eq]
    exact (forall_defined_value_iff_pos vs _).2
      (fun i hi hd => (attainsMax_iff_value vs hsafe i).1 (h i hi hd)) v hv hs

theorem low_covers_defined_iff (vs : List (Option Int))
    (hsafe : SafeTotals vs) :
    (occIdx (runLow MAX_SAFE_INTEGER vs) 0 vs).length = notUndefinedCount vs ↔
      ∀ i < vs.length, isDefinedAt vs i = true → attainsMin vs i = true := by
  rw [length_occIdx, notUndefinedCount_eq,
    countP_eq_countP_iff vs _ _
      (by intro v hv hd; simp only [decide_eq_true_eq] at hd; rw [hd]; rfl)]
  constructor
  · intro h i hi hd
    rw [attainsMin_iff_value vs hsafe i]
    refine (forall_defined_value_iff_pos vs _).1 ?_ i hi hd
    intro v hv hs
    simpa using h v hv hs
  · intro h v hv hs
    simp only [decide_eq_true_eq]
    exact (forall_defined_value_iff_pos vs _).2
      (fun i hi hd => (attainsMin_iff_value vs hsafe i).1 (h i hi hd)) v hv hs

theorem setsEqual_implies_covers_defined (vs : List (Option Int))
    (hsafe : SafeTotals vs)
    (h : ∀ i < vs.length, attainsMax vs i = attainsMin vs i) :
    (occIdx (runHigh MIN_SAFE_INTEGER vs) 0 vs).length =
      notUndefinedCount vs := by
  rw [length_occIdx, notUndefinedCount_eq]
  by_cases hd : definedTotals vs = []
  · have h1 : vs.countP
        (fun v => decide (v = some (runHigh MIN_SAFE_INTEGER vs))) = 0 := by
      rw [List.countP_eq_zero]
      intro v hv
      simp only [decide_eq_true_eq]
      intro hveq
      have hmem : runHigh MIN_SAFE_INTEGER vs ∈ definedTotals vs :=
        List.mem_filterMap.2 ⟨v, hv, by rw [hveq]; rfl⟩
      rw [hd] at hmem
      simp at hmem
    have h2 : vs.countP (fun v => v.isSome) = 0 := by
      rw [List.countP_eq_zero]
      intro v hv hs
      cases v with
      | none => simp at hs
      | some y =>
        have hmem : y ∈ definedTotals vs :=
          List.mem_filterMap.2 ⟨some y, hv, rfl⟩
        rw [hd] at hmem
        simp at hmem
    rw [h1, h2]
  · obtain ⟨x, hx⟩ := List.exists_mem_of_ne_nil _ hd
    have hFHmem : some (runHigh MIN_SAFE_INTEGER vs) ∈ vs := by
      rcases runHigh_eq_or_mem vs MIN_SAFE_INTEGER with he | hm
      · obtain ⟨v, hv, hvx⟩ := List.mem_filterMap.1 hx
        have hvx2 : v = some x := by simpa using hvx
        rw [hvx2] at hv
        have hub : x ≤ runHigh MIN_SAFE_INTEGER vs :=
          runHigh_ge_defined vs _ x hv
        have hlb : MIN_SAFE_INTEGER ≤ x := (hsafe x hx).1
        have hxe : x = runHigh MIN_SAFE_INTEGER vs := by omega
        rw [← hxe]
        exact hv
      · exact hm
    obtain ⟨iM, hiM⟩ := List.mem_iff_get?.1 hFHmem
    obtain ⟨hiMlt, _⟩ := List.get?_eq_some.1 hiM
    have hmax : attainsMax vs iM = true :=
      (attainsMax_iff_value vs hsafe iM).2 hiM
    have hmin : attainsMin vs iM = true := by
      rw [← h iM hiMlt]
      exact hmax
    have hFL : vs.get? iM = some (some (runLow MAX_SAFE_INTEGER vs)) :=
      (attainsMin_iff_value vs hsafe iM).1 hmin
    have hFHFL : runHigh MIN_SAFE_INTEGER vs = runLow MAX_SAFE_INTEGER vs := by
      rw [hiM] at hFL
      simpa using hFL
    refine List.countP_congr ?_
    intro v hv
    simp only [decide_eq_true_eq]
    constructor
    · intro hveq
      rw [hveq]
      rfl
    · intro hs
      cases v with
      | none => simp at hs
      | some y =>
        have h1 : y ≤ runHigh MIN_SAFE_INTEGER vs :=
          runHigh_ge_defined vs _ y hv
        have h2 : runLow MAX_SAFE_INTEGER vs ≤ y :=
          runLow_le_defined vs _ y hv
        have hy : y = runHigh MIN_SAFE_INTEGER vs := by omega
        rw [hy]

theorem degenerate_iff (vs : List (Option Int)) (hsafe : SafeTotals vs) :
    ((occIdx (runHigh MIN_SAFE_INTEGER vs) 0 vs).length = vs.length
      ∨ (occIdx (runLow MAX_SAFE_INTEGER vs) 0 vs).length = vs.length
      ∨ (occIdx (runHigh MIN_SAFE_INTEGER vs) 0 vs).length
          = notUndefinedCount vs
      ∨ (occIdx (runLow MAX_SAFE_INTEGER vs) 0 vs).length
          = notUndefinedCount vs)
    ↔ allDegenerate vs = true := by
  rw [allDegenerate]
  simp only [Bool.or_eq_true]
  constructor
  · rintro (h | h | h | h)
    · exact Or.inl (Or.inl (Or.inl (Or.inr
        ((range_all_iff _ _).2 ((high_covers_all_iff vs hsafe).1 h)))))
    · exact Or.inl (Or.inl (Or.inr
        ((range_all_iff _ _).2 ((low_covers_all_iff vs hsafe).1 h))))
    · refine Or.inl (Or.inr ((range_all_iff _ _).2 ?_))
      intro i hi
      exact (bool_imp_iff _ _).2
        (fun hdz => (high_covers_defined_iff vs hsafe).1 h i hi hdz)
    · refine Or.inr ((range_all_iff _ _).2 ?_)
      intro i hi
      exact (bool_imp_iff _ _).2
        (fun hdz => (low_covers_defined_iff vs hsafe).1 h i hi hdz)
  · rintro ((((h | h) | h) | h) | h)
    · refine Or.inr (Or.inr (Or.inl ?_))
      apply setsEqual_implies_covers_defined vs hsafe
      intro i hi
      have hb := (range_all_iff _ _).1 h i hi
      simpa using hb
    · exact Or.inl
        ((high_covers_all_iff vs hsafe).2 ((range_all_iff _ _).1 h))
    · exact Or.inr (Or.inl
        ((low_covers_all_iff vs hsafe).2 ((range_all_iff _ _).1 h)))
    · refine Or.inr (Or.inr (Or.inl ((high_covers_defined_iff vs hsafe).2 ?_)))
      intro i hi hdz
      exact (bool_imp_iff _ _).1 ((range_all_iff _ _).1 h i hi) hdz
    · refine Or.inr (Or.inr (Or.inr ((low_covers_defined_iff vs hsafe).2 ?_)))
      intro i hi hdz
      exact (bool_imp_iff _ _).1 ((range_all_iff _ _).1 h i hi) hdz

theorem markHighest_length (idxs : List ℕ) :
    ∀ r : List HighestLowestTotalScoreCalculationResult,
      (markHighest r idxs).length = r.length := by
  induction idxs with
  | nil => intro r; rfl
  | cons h t ih =>
    intro r
    have hstep : markHighest r (h :: t) =
        markHighest
          (r.set h ⟨true, (r.getD h default).hasLowestTotalScore⟩) t := rfl
    rw [hstep, ih, List.length_set]

theorem markLowest_length (idxs : List ℕ) :
    ∀ r : List HighestLowestTotalScoreCalculationResult,
      (markLowest r idxs).length = r.length := by
  induction idxs with
  | nil => intro r; rfl
  | cons h t ih =>
    intro r
    have hstep : markLowest r (h :: t) =
        markLowest
          (r.set h ⟨(r.getD h default).hasHighestTotalScore, true⟩) t := rfl
    rw [hstep, ih, List.length_set]

theorem markHighest_get? (idxs : List ℕ) :
    ∀ (r : List HighestLowestTotalScoreCalculationResult),
      (∀ h ∈ idxs, h < r.length) → ∀ i,
        (markHighest r idxs).get? i =
          (r.get? i).map
            (fun x =>
              if i ∈ idxs then ⟨true, x.hasLowestTotalScore⟩ else x) := by
  induction idxs with
  | nil =>
    intro r hb i
    have hnil : markHighest r [] = r := rfl
    rw [hnil]
    cases h : r.get? i
    · rfl
    · simp
  | cons h t ih =>
    intro r hb i
    have hh : h < r.length := hb h (List.mem_cons_self h t)
    have hstep : markHighest r (h :: t) =
        markHighest
          (r.set h ⟨true, (r.getD h default).hasLowestTotalScore⟩) t := rfl
    rw [hstep, ih _
      (by
        intro a ha
        rw [List.length_set]
        exact hb a (List.mem_cons_of_mem h ha)) i]
    by_cases hih : i = h
    · subst hih
      have hset :
          (r.set i ⟨true, (r.getD i default).hasLowestTotalScore⟩).get? i =
            some ⟨true, (r.getD i default).hasLowestTotalScore⟩ := by
        rw [List.get?_eq_getElem?]
        exact List.getElem?_set_self hh
      have hr : r.get? i = some (r.getD i default) := by
        rw [List.get?_eq_getElem?, List.getElem?_eq_getElem hh,
          getD_eq_getElem_of_lt _ _ _ hh]
      rw [hset, hr]
      by_cases hit : i ∈ t <;> simp [hit]
    · have hset :
          (r.set h ⟨true, (r.getD h default).hasLowestTotalScore⟩).get? i =
            r.get? i := by
        rw [List.get?_eq_getElem?, List.get?_eq_getElem?,
          List.getElem?_set_ne (fun he => hih he.symm)]
      rw [hset]
      cases hri : r.get? i with
      | none => simp
      | some x => simp [List.mem_cons, hih]

theorem markLowest_get? (idxs : List ℕ) :
    ∀ (r : List HighestLowestTotalScoreCalculationResult),
      (∀ h ∈ idxs, h < r.length) → ∀ i,
        (markLowest r idxs).get? i =
          (r.get? i).map
            (fun x =>
              if i ∈ idxs then ⟨x.hasHighestTotalScore, true⟩ else x) := by
  induction idxs with
  | nil =>
    intro r hb i
    have hnil : markLowest r [] = r := rfl
    rw [hnil]
    cases h : r.get? i
    · rfl
    · simp
  | cons h t ih =>
    intro r hb i
    have hh : h < r.length := hb h (List.mem_cons_self h t)
    have hstep : markLowest r (h :: t) =
        markLowest
          (r.set h ⟨(r.getD h default).hasHighestTotalScore, true⟩) t := rfl
    rw [hstep, ih _
      (by
        intro a ha
        rw [List.length_set]
        exact hb a (List.mem_cons_of_mem h ha)) i]
    by_cases hih : i = h
    · subst hih
      have hset :
          (r.set i ⟨(r.getD i default).hasHighestTotalScore, true⟩).get? i =
            some ⟨(r.getD i default).hasHighestTotalScore, true⟩ := by
        rw [List.get?_eq_getElem?]
        exact List.getElem?_set_self hh
      have hr : r.get? i = some (r.getD i default) := by
        rw [List.get?_eq_getElem?, List.getElem?_eq_getElem hh,
          getD_eq_getElem_of_lt _ _ _ hh]
      rw [hset, hr]
      by_cases hit : i ∈ t <;> simp [hit]
    · have hset :
          (r.set h ⟨(r.getD h default).hasHighestTotalScore, true⟩).get? i =
            r.get? i := by
        rw [List.get?_eq_getElem?, List.get?_eq_getElem?,
          List.getElem?_set_ne (fun he => hih he.symm)]
      rw [hset]
      cases hri : r.get? i with
      | none => simp
      | some x => simp [List.mem_cons, hih]

theorem occIdx_bound (x : Int) (vs : List (Option Int)) :
    ∀ h ∈ occIdx x 0 vs, h < vs.length := by
  intro h hmem
  have hv := (mem_occIdx_zero x vs h).1 hmem
  obtain ⟨hlt, _⟩ := List.get?_eq_some.1 hv
  exact hlt

/-- C1 (amended): for totals whose defined entries are JS safe integers, the
calculator returns, at every position, flags that are all-false when the
claim's degenerate policy applies and otherwise mark exactly the positions
achieving the maximum (resp. minimum) defined total.  Without the
safe-integer restriction the claim fails: a total beyond
`Number.MAX_SAFE_INTEGER` can never enter the lowest set, because the scan's
sentinel start value is never strictly greater than it. -/
theorem extremes_spec (totals : List (Option Int)) (hsafe : SafeTotals totals) :
    ∀ i, (calculateHighestAndLowestOfTotals totals).get? i =
      (totals.get? i).map (fun _ =>
        (⟨!allDegenerate totals && attainsMax totals i,
          !allDegenerate totals && attainsMin totals i⟩ :
          HighestLowestTotalScoreCalculationResult)) := by
  intro i
  simp only [calculateHighestAndLowestOfTotals, lowestIndexes_eq,
    highestIndexes_eq]
  split
  case isTrue hcond =>
    have hdeg : allDegenerate totals = true :=
      (degenerate_iff totals hsafe).1 hcond
    rw [hdeg, List.get?_eq_getElem?, List.getElem?_map, List.get?_eq_getElem?]
    cases ht : totals[i]? <;> simp
  case isFalse hcond =>
    have hdeg : allDegenerate totals = false := by
      cases hb : allDegenerate totals
      · rfl
      · exact absurd ((degenerate_iff totals hsafe).2 hb) hcond
    have hbH : ∀ h ∈ occIdx (runHigh MIN_SAFE_INTEGER totals) 0 totals,
        h < (totals.map (fun _ =>
          (⟨false, false⟩ : HighestLowestTotalScoreCalculationResult))).length := by
      intro h hm
      rw [List.length_map]
      exact occIdx_bound _ totals h hm
    have hbL : ∀ h ∈ occIdx (runLow MAX_SAFE_INTEGER totals) 0 totals,
        h < (markHighest
          (totals.map (fun _ =>
            (⟨false, false⟩ : HighestLowestTotalScoreCalculationResult)))
          (occIdx (runHigh MIN_SAFE_INTEGER totals) 0 totals)).length := by
      intro h hm
      rw [markHighest_length, List.length_map]
      exact occIdx_bound _ totals h hm
    rw [markLowest_get? _ _ hbL i, markHighest_get? _ _ hbH i, hdeg,
      List.get?_eq_getElem?, List.getElem?_map, List.get?_eq_getElem?]
    have hmax : (i ∈ occIdx (runHigh MIN_SAFE_INTEGER totals) 0 totals) ↔
        attainsMax totals i = true := by
      rw [mem_occIdx_zero, attainsMax_iff_value totals hsafe i]
    have hmin : (i ∈ occIdx (runLow MAX_SAFE_INTEGER totals) 0 totals) ↔
        attainsMin totals i = true := by
      rw [mem_occIdx_zero, attainsMin_iff_value totals hsafe i]
    cases ht : totals[i]? with
    | none => simp
    | some v =>
      by_cases hH : i ∈ occIdx (runHigh MIN_SAFE_INTEGER totals) 0 totals <;>
        by_cases hL : i ∈ occIdx (runLow MAX_SAFE_INTEGER totals) 0 totals
      · have h1 : attainsMax totals i = true := hmax.1 hH
        have h2 : attainsMin totals i = true := hmin.1 hL
        simp [hH, hL, h1, h2]
      · have h1 : attainsMax totals i = true := hmax.1 hH
        have h2 : attainsMin totals i = false := by
          cases hb : attainsMin totals i
          · rfl
          · exact absurd (hmin.2 hb) hL
        simp [hH, hL, h1, h2]
      · have h1 : attainsMax totals i = false := by
          cases hb : attainsMax totals i
          · rfl
          · exact absurd (hmax.2 hb) hH
        have h2 : attainsMin totals i = true := hmin.1 hL
        simp [hH, hL, h1, h2]
      · have h1 : attainsMax totals i = false := by
          cases hb : attainsMax totals i
          · rfl
          · exact absurd (hmax.2 hb) hH
        have h2 : attainsMin totals i = false := by
          cases hb : attainsMin totals i
          · rfl
          · exact absurd (hmin.2 hb) hL
        simp [hH, hL, h1, h2]

/-- Witness for C1 at the spec's example totals `[10, 5, 10]`, position 0. -/
theorem extremes_spec_witness :
    SafeTotals [some 10, some 5, some 10]
    ∧ (calculateHighestAndLowestOfTotals [some 10, some 5, some 10]).get? 0 =
        (([some 10, some 5, some 10] : List (Option Int)).get? 0).map (fun _ =>
          (⟨!allDegenerate [some 10, some 5, some 10]
              && attainsMax [some 10, some 5, some 10] 0,
            !allDegenerate [some 10, some 5, some 10]
              && attainsMin [some 10, some 5, some 10] 0⟩ :
            HighestLowestTotalScoreCalculationResult)) :=
  ⟨by decide, extremes_spec [some 10, some 5, some 10] (by decide) 0⟩

/-- C1, counterexample: with totals `[2^53, 2^53 + 2]` (both representable
JS numbers above `MAX_SAFE_INTEGER`), the situation is not degenerate and
index 0 achieves the minimum defined total, yet the code marks no lowest
flag on it (it returns `hasLowestTotalScore = false` for every player): the
lowest scan never sees a value strictly below its sentinel. -/
theorem extremes_unsafe_counterexample :
    allDegenerate [some (2 ^ 53), some (2 ^ 53 + 2)] = false
    ∧ attainsMin [some (2 ^ 53), some (2 ^ 53 + 2)] 0 = true
    ∧ (calculateHighestAndLowestOfTotals
        [some (2 ^ 53), some (2 ^ 53 + 2)]).get? 0 = some ⟨false, false⟩ := by
  refine ⟨by decide, by decide, ?_⟩
  decide

/-- C10: no position ever carries both flags: if the maximum and minimum
defined totals coincide, every defined position holds the common value, the
highest set covers all defined totals, and the degenerate rule suppresses
every flag.  This holds for arbitrary integer totals, with no safe-range
restriction. -/
theorem highest_lowest_flags_disjoint (totals : List (Option Int)) (i : ℕ)
    (r : HighestLowestTotalScoreCalculationResult)
    (hr : (calculateHighestAndLowestOfTotals totals).get? i = some r) :
    ¬ (r.hasHighestTotalScore = true ∧ r.hasLowestTotalScore = true) := by
  rintro ⟨hH, hL⟩
  simp only [calculateHighestAndLowestOfTotals, lowestIndexes_eq,
    highestIndexes_eq] at hr
  split at hr
  case isTrue hcond =>
    rw [List.get?_eq_getElem?, List.getElem?_map] at hr
    cases ht : totals[i]? with
    | none => rw [ht] at hr; exact absurd hr (by simp)
    | some v =>
      rw [ht] at hr
      have h2 : (⟨false, false⟩ : HighestLowestTotalScoreCalculationResult)
          = r := Option.some.inj hr
      rw [← h2] at hH
      exact absurd hH (by simp)
  case isFalse hcond =>
    have hbH : ∀ h ∈ occIdx (runHigh MIN_SAFE_INTEGER totals) 0 totals,
        h < (totals.map (fun _ =>
          (⟨false, false⟩ : HighestLowestTotalScoreCalculationResult))).length := by
      intro h hm
      rw [List.length_map]
      exact occIdx_bound _ totals h hm
    have hbL : ∀ h ∈ occIdx (runLow MAX_SAFE_INTEGER totals) 0 totals,
        h < (markHighest
          (totals.map (fun _ =>
            (⟨false, false⟩ : HighestLowestTotalScoreCalculationResult)))
          (occIdx (runHigh MIN_SAFE_INTEGER totals) 0 totals)).length := by
      intro h hm
      rw [markHighest_length, List.length_map]
      exact occIdx_bound _ totals h hm
    rw [markLowest_get? _ _ hbL i, markHighest_get? _ _ hbH i,
      List.get?_eq_getElem?, List.getElem?_map] at hr
    cases ht : totals[i]? with
    | none => rw [ht] at hr; exact absurd hr (by simp)
    | some v =>
      rw [ht] at hr
      by_cases hiH : i ∈ occIdx (runHigh MIN_SAFE_INTEGER totals) 0 totals <;>
        by_cases hiL : i ∈ occIdx (runLow MAX_SAFE_INTEGER totals) 0 totals
      · have hvH := (mem_occIdx_zero _ totals i).1 hiH
        have hvL := (mem_occIdx_zero _ totals i).1 hiL
        rw [hvH] at hvL
        have hFeq : runHigh MIN_SAFE_INTEGER totals
            = runLow MAX_SAFE_INTEGER totals := by
          simpa using hvL
        have hall : ∀ w ∈ totals, w.isSome = true →
            w = some (runHigh MIN_SAFE_INTEGER totals) := by
          intro w hw hs
          cases w with
          | none => simp at hs
          | some y =>
            have h1 : y ≤ runHigh MIN_SAFE_INTEGER totals :=
              runHigh_ge_defined totals _ y hw
            have h2 : runLow MAX_SAFE_INTEGER totals ≤ y :=
              runLow_le_defined totals _ y hw
            have hy : y = runHigh MIN_SAFE_INTEGER totals := by omega
            rw [hy]
        have hcnt : totals.countP
              (fun w => decide (w = some (runHigh MIN_SAFE_INTEGER totals)))
            = totals.countP (fun w => w.isSome) := by
          refine List.countP_congr ?_
          intro w hw
          simp only [decide_eq_true_eq]
          constructor
          · intro hp
            rw [hp]
            rfl
          · intro hq
            exact hall w hw hq
        apply hcond
        refine Or.inr (Or.inr (Or.inl ?_))
        rw [length_occIdx, notUndefinedCount_eq]
        exact hcnt
      · simp only [hiH, hiL, if_pos, if_neg, not_false_iff] at hr
        have h2 := Option.some.inj hr
        rw [← h2] at hL
        simp [hiL] at hL
      · simp only [hiH, hiL] at hr
        have h2 := Option.some.inj hr
        rw [← h2] at hH
        simp [hiH] at hH
      · have h2 := Option.some.inj hr
        rw [← h2] at hH
        simp [hiH, hiL] at hH

/-- Witness for C10 at the totals `[1, 2, 3]`, position 0. -/
theorem highest_lowest_flags_disjoint_witness :
    (calculateHighestAndLowestOfTotals [some 1, some 2, some 3]).get? 0 =
      some ⟨false, true⟩
    ∧ ¬ ((false : Bool) = true ∧ (true : Bool) = true) :=
  ⟨by decide,
    highest_lowest_flags_disjoint [some 1, some 2, some 3] 0 ⟨false, true⟩
      (by decide)⟩

/-! ## Failure characterisation of `tryLoad` -/

theorem buildRoundScores_error_iff (es : List (String × JVal)) :
    ∀ acc, (buildRoundScores acc es = Except.error ()) ↔
      es.any badScoreEntry = true := by
  induction es with
  | nil =>
    intro acc
    simp [buildRoundScores]
  | cons e es ih =>
    intro acc
    cases hp : jsParseInt e.1 with
    | none =>
      simp [buildRoundScores, hp, badScoreEntry]
    | some idx =>
      by_cases hn : jsIsNaN e.2 = true
      · simp [buildRoundScores, hp, hn, badScoreEntry]
      · have hn2 : jsIsNaN e.2 = false := by
          cases hb : jsIsNaN e.2
          · rfl
          · exact absurd hb hn
        simp [buildRoundScores, hp, hn2, badScoreEntry, ih]

theorem map_error_iff {α β : Type _} (f : α → β) (x : Except Unit α) :
    ((x.map f) = Except.error ()) ↔ x = Except.error () := by
  cases x <;> simp [Except.map]

theorem tryLoadPlayer_error_iff (p : JVal) :
    (tryLoadPlayer p = Except.error ()) ↔ badPlayer p = true := by
  cases hname : getField p "name" with
  | none => simp [tryLoadPlayer, badPlayer, hname]
  | some v =>
    cases v with
    | str s =>
      by_cases hs : s = ""
      · subst hs
        simp [tryLoadPlayer, badPlayer, hname]
      · cases hrs : getField p "roundScores" with
        | none => simp [tryLoadPlayer, badPlayer, hname, hrs, hs]
        | some rs =>
          by_cases htr : (jsTruthy rs && typeofObject rs) = true
          · rw [show (tryLoadPlayer p = Except.error ()) ↔
                ((buildRoundScores [] (jsEntries rs)).map
                    (fun scores => (⟨s, scores⟩ : PlayerDataDec))
                  = Except.error ()) from by
              simp [tryLoadPlayer, hname, hrs, hs, htr]]
            rw [map_error_iff, buildRoundScores_error_iff]
            simp [badPlayer, hname, hrs, hs, htr]
          · have htr2 : (jsTruthy rs && typeofObject rs) = false := by
              cases hb : (jsTruthy rs && typeofObject rs)
              · rfl
              · exact absurd hb htr
            simp [tryLoadPlayer, badPlayer, hname, hrs, hs, htr2]
    | null => simp [tryLoadPlayer, badPlayer, hname]
    | bool b => simp [tryLoadPlayer, badPlayer, hname]
    | num n => simp [tryLoadPlayer, badPlayer, hname]
    | arr xs => simp [tryLoadPlayer, badPlayer, hname]
    | obj fs => simp [tryLoadPlayer, badPlayer, hname]

theorem tryLoadPlayersList_error_iff (ps : List JVal) :
    (tryLoadPlayersList ps = Except.error ()) ↔ ps.any badPlayer = true := by
  induction ps with
  | nil => simp [tryLoadPlayersList]
  | cons p ps ih =>
    cases hp : tryLoadPlayer p with
    | error e =>
      cases e
      have hbp : badPlayer p = true := (tryLoadPlayer_error_iff p).1 hp
      simp [tryLoadPlayersList, hp, hbp]
    | ok q =>
      have hbp : badPlayer p = false := by
        cases hb : badPlayer p
        · rfl
        · rw [(tryLoadPlayer_error_iff p).2 hb] at hp
          exact absurd hp (by simp)
      cases hps : tryLoadPlayersList ps with
      | error e =>
        cases e
        have ha : ps.any badPlayer = true := ih.1 hps
        simp [tryLoadPlayersList, hp, hps, hbp, ha]
      | ok qs =>
        have ha : ps.any badPlayer = false := by
          cases hb : ps.any badPlayer
          · rfl
          · rw [ih.2 hb] at hps
            exact absurd hps (by simp)
        simp [tryLoadPlayersList, hp, hps, hbp, ha]

/-- C7 (amended): `tryLoad` fails exactly when the record is absent or
unparseable, `players` is missing / falsy / not an array / empty,
`roundCount` is not a number, some player lacks a truthy string name or a
truthy object-typed `roundScores`, or some `roundScores` entry has a key
`parseInt` cannot parse at all (NaN) or a value whose JS number coercion is
NaN.  In particular, negative integer keys and numeric string values are
accepted, and a well-formed record without a numeric `roundCount` is
rejected — both contradicting the claim as stated. -/
theorem tryLoad_error_iff (item : Option JVal) :
    (tryLoad item = Except.error ()) ↔ badRecord item = true := by
  cases item with
  | none => simp [tryLoad, badRecord]
  | some g =>
    cases hf : getField g "players" with
    | none => simp [tryLoad, badRecord, hf]
    | some v =>
      cases v with
      | arr ps =>
        by_cases hlen : ps.length < 1
        · simp [tryLoad, badRecord, hf, hlen]
        · cases hrc : getField g "roundCount" with
          | none => simp [tryLoad, badRecord, hf, hlen, hrc]
          | some w =>
            cases w with
            | num rc =>
              rw [show (tryLoad (some g) = Except.error ()) ↔
                  ((tryLoadPlayersList ps).map
                      (fun players => (⟨players, rc⟩ : GameDataDec))
                    = Except.error ()) from by
                simp [tryLoad, hf, hlen, hrc]]
              rw [map_error_iff, tryLoadPlayersList_error_iff]
              simp [badRecord, hf, hlen, hrc]
            | null => simp [tryLoad, badRecord, hf, hlen, hrc]
            | bool b => simp [tryLoad, badRecord, hf, hlen, hrc]
            | str s => simp [tryLoad, badRecord, hf, hlen, hrc]
            | arr xs => simp [tryLoad, badRecord, hf, hlen, hrc]
            | obj fs => simp [tryLoad, badRecord, hf, hlen, hrc]
      | null => simp [tryLoad, badRecord, hf]
      | bool b => simp [tryLoad, badRecord, hf]
      | num n => simp [tryLoad, badRecord, hf]
      | str s => simp [tryLoad, badRecord, hf]
      | obj fs => simp [tryLoad, badRecord, hf]

/-- C7, counterexample: a record with a nonempty valid `players` array but
no `roundCount` field satisfies none of the claim's failure conditions, yet
`tryLoad` rejects it; conversely a record whose only score key is `"-3"` has
a key that cannot be parsed as a non-negative integer index, which the claim
says must fail, yet `tryLoad` accepts it (the negative index is stored as an
invisible non-index property). -/
theorem tryLoad_claim_counterexample :
    claimedBadRecord (some (JVal.obj [("players", JVal.arr [JVal.obj
        [("name", JVal.str "a"), ("roundScores", JVal.obj [])]])])) = false
    ∧ tryLoad (some (JVal.obj [("players", JVal.arr [JVal.obj
        [("name", JVal.str "a"), ("roundScores", JVal.obj [])]])]))
        = Except.error ()
    ∧ claimedBadRecord (some (JVal.obj [("players", JVal.arr [JVal.obj
        [("name", JVal.str "a"),
          ("roundScores", JVal.obj [("-3", JVal.num 5)])]]),
        ("roundCount", JVal.num 7)])) = true
    ∧ tryLoad (some (JVal.obj [("players", JVal.arr [JVal.obj
        [("name", JVal.str "a"),
          ("roundScores", JVal.obj [("-3", JVal.num 5)])]]),
        ("roundCount", JVal.num 7)]))
        = Except.ok ⟨[⟨"a", []⟩], 7⟩ :=
  ⟨rfl, rfl, rfl, rfl⟩

/-! ## Round trip of the persistence codec -/

theorem digitVal_digitChar (d : ℕ) (h : d < 10) :
    digitVal (Nat.digitChar d) = some d := by
  interval_cases d <;> decide

theorem natDigits_ne_nil (n : ℕ) : natDigits n ≠ [] := by
  rw [natDigits]
  by_cases h : n < 10
  · rw [dif_pos h]
    simp
  · rw [dif_neg h]
    simp

theorem natDigits_all_digits (n : ℕ) :
    ∀ c ∈ natDigits n, (digitVal c).isSome = true := by
  induction n using Nat.strong_induction_on with
  | _ n ih =>
    rw [natDigits]
    by_cases h : n < 10
    · rw [dif_pos h]
      intro c hc
      simp only [List.mem_singleton] at hc
      subst hc
      rw [digitVal_digitChar n h]
      rfl
    · rw [dif_neg h]
      intro c hc
      rcases List.mem_append.1 hc with h1 | h2
      · exact ih (n / 10) (Nat.div_lt_self (by omega) (by omega)) c h1
      · simp only [List.mem_singleton] at h2
        subst h2
        rw [digitVal_digitChar _ (Nat.mod_lt n (by omega))]
        rfl

theorem parseDigitsAcc_append (xs : List Char) :
    ∀ (ys : List Char) (acc : ℕ),
      (∀ c ∈ xs, (digitVal c).isSome = true) →
      parseDigitsAcc acc (xs ++ ys) =
        parseDigitsAcc (parseDigitsAcc acc xs) ys := by
  induction xs with
  | nil => intro ys acc h; rfl
  | cons c xs ih =>
    intro ys acc h
    obtain ⟨d, hd⟩ :=
      Option.isSome_iff_exists.1 (h c (List.mem_cons_self c xs))
    show parseDigitsAcc acc (c :: (xs ++ ys)) = _
    simp only [parseDigitsAcc, hd]
    exact ih ys (acc * 10 + d) (fun c2 hc2 => h c2 (List.mem_cons_of_mem c hc2))

theorem parseDigitsAcc_natDigits (n : ℕ) :
    ∀ acc, parseDigitsAcc acc (natDigits n) =
      acc * 10 ^ (natDigits n).length + n := by
  induction n using Nat.strong_induction_on with
  | _ n ih =>
    intro acc
    rw [natDigits]
    by_cases h : n < 10
    · rw [dif_pos h]
      have hd := digitVal_digitChar n h
      simp [parseDigitsAcc, hd]
    · rw [dif_neg h]
      have hlt : n / 10 < n := Nat.div_lt_self (by omega) (by omega)
      rw [parseDigitsAcc_append _ _ _ (natDigits_all_digits (n / 10))]
      rw [ih (n / 10) hlt acc]
      have hd := digitVal_digitChar (n % 10) (Nat.mod_lt n (by omega))
      simp only [parseDigitsAcc, hd, List.length_append, List.length_cons,
        List.length_nil]
      rw [pow_succ]
      have hmod : n / 10 * 10 + n % 10 = n := by omega
      ring_nf
      omega

theorem parseNatPrefix_natDigits (n : ℕ) :
    parseNatPrefix (natDigits n) = some n := by
  have h0 : parseDigitsAcc 0 (natDigits n) = n := by
    have h1 := parseDigitsAcc_natDigits n 0
    simpa using h1
  cases hds : natDigits n with
  | nil => exact absurd hds (natDigits_ne_nil n)
  | cons c cs =>
    have hc : (digitVal c).isSome = true := by
      apply natDigits_all_digits n
      rw [hds]
      exact List.mem_cons_self c cs
    obtain ⟨d, hd⟩ := Option.isSome_iff_exists.1 hc
    rw [hds] at h0
    simp [parseDigitsAcc, hd] at h0
    simp [parseNatPrefix, hd, h0]

theorem jsParseInt_natDecimal (n : ℕ) :
    jsParseInt (natDecimal n) = some (n : Int) := by
  have htl : (natDecimal n).toList = natDigits n := rfl
  cases hds : natDigits n with
  | nil => exact absurd hds (natDigits_ne_nil n)
  | cons c cs =>
    have hc : (digitVal c).isSome = true := by
      apply natDigits_all_digits n
      rw [hds]
      exact List.mem_cons_self c cs
    obtain ⟨d, hd⟩ := Option.isSome_iff_exists.1 hc
    have hdash : ¬ c = '-' := by
      intro he
      rw [he] at hd
      exact Option.noConfusion hd
    have hplus : ¬ c = '+' := by
      intro he
      rw [he] at hd
      exact Option.noConfusion hd
    have h2 : (natDecimal n).toList = c :: cs := htl.trans hds
    rw [jsParseInt, h2]
    simp only [if_neg hdash, if_neg hplus]
    rw [← hds, parseNatPrefix_natDigits]
    rfl

theorem buildRoundScores_enc (l : List (Option Int)) :
    ∀ (i0 : ℕ) (a : List (Option Int)),
      (∀ j, i0 ≤ j → a.getD j none = none) →
      ∃ r, buildRoundScores a
          ((roundScoresDataGo i0 l).map
            (fun e => (natDecimal e.1, JVal.num e.2))) = Except.ok r
        ∧ ∀ j, r.getD j none =
            if j < i0 then a.getD j none else l.getD (j - i0) none := by
  induction l with
  | nil =>
    intro i0 a ha
    refine ⟨a, rfl, ?_⟩
    intro j
    by_cases hj : j < i0
    · rw [if_pos hj]
    · rw [if_neg hj, ha j (by omega)]
      simp
  | cons v l ih =>
    intro i0 a ha
    cases v with
    | none =>
      obtain ⟨r, hr, hchar⟩ := ih (i0 + 1) a (fun j hj => ha j (by omega))
      refine ⟨r, hr, ?_⟩
      intro j
      rw [hchar j]
      by_cases h1 : j < i0
      · rw [if_pos (by omega : j < i0 + 1), if_pos h1]
      · by_cases h2 : j = i0
        · subst h2
          rw [if_pos (by omega : j < j + 1), if_neg (by omega : ¬ j < j),
            ha j (le_refl j), Nat.sub_self]
          rfl
        · rw [if_neg (by omega : ¬ j < i0 + 1), if_neg h1]
          have h3 : j - i0 = (j - (i0 + 1)) + 1 := by omega
          rw [h3]
          rfl
    | some x =>
      have hset : ∀ j, (jsArraySetAt a (i0 : Int) (some x)).getD j none =
          if j = i0 then some x else a.getD j none := by
        intro j
        rw [show jsArraySetAt a (i0 : Int) (some x)
            = jsArraySetAny a i0 (some x) from by
          simp [jsArraySetAt]]
        exact jsArraySetAny_getD a i0 (some x) j
      obtain ⟨r, hr, hchar⟩ := ih (i0 + 1) (jsArraySetAt a (i0 : Int) (some x))
        (fun j hj => by rw [hset j, if_neg (by omega : ¬ j = i0)]; exact ha j (by omega))
      refine ⟨r, ?_, ?_⟩
      · rw [show roundScoresDataGo i0 (some x :: l)
            = (i0, x) :: roundScoresDataGo (i0 + 1) l from rfl]
        rw [List.map_cons]
        show buildRoundScores a
          ((natDecimal i0, JVal.num x) ::
            (roundScoresDataGo (i0 + 1) l).map
              (fun e => (natDecimal e.1, JVal.num e.2))) = _
        simp only [buildRoundScores, jsParseInt_natDecimal]
        rw [show jsIsNaN (JVal.num x) = false from rfl]
        simp only [Bool.false_eq_true, if_false]
        rw [show jsScoreVal (JVal.num x) = some x from rfl]
        exact hr
      · intro j
        rw [hchar j]
        by_cases h1 : j < i0
        · rw [if_pos (by omega : j < i0 + 1), hset j,
            if_neg (by omega : ¬ j = i0), if_pos h1]
        · by_cases h2 : j = i0
          · subst h2
            rw [if_pos (by omega : j < j + 1), hset j, if_pos rfl,
              if_neg (by omega : ¬ j < j), Nat.sub_self]
            rfl
          · rw [if_neg (by omega : ¬ j < i0 + 1), if_neg h1]
            have h3 : j - i0 = (j - (i0 + 1)) + 1 := by omega
            rw [h3]
            rfl

theorem tryLoadPlayer_enc (p : Player) (hn : p.name ≠ "") :
    ∃ scores,
      tryLoadPlayer (playerDataToJVal
          ⟨p.name, convertRoundScoresToRoundScoresData p.roundScores⟩)
        = Except.ok ⟨p.name, scores⟩
      ∧ ∀ j, scores.getD j none = p.roundScores.getD j none := by
  obtain ⟨r, hr, hchar⟩ :=
    buildRoundScores_enc p.roundScores 0 [] (fun j _ => rfl)
  have key : tryLoadPlayer (playerDataToJVal
        ⟨p.name, convertRoundScoresToRoundScoresData p.roundScores⟩)
      = if p.name = "" then Except.error ()
        else Except.map (fun scores => (⟨p.name, scores⟩ : PlayerDataDec))
          (buildRoundScores []
            ((roundScoresDataGo 0 p.roundScores).map
              (fun e => (natDecimal e.1, JVal.num e.2)))) := rfl
  refine ⟨r, ?_, ?_⟩
  · rw [key, if_neg hn, hr]
    rfl
  · intro j
    rw [hchar j]
    simp

theorem tryLoadPlayersList_enc (ps : List Player)
    (hn : ∀ p ∈ ps, p.name ≠ "") :
    ∃ qs, tryLoadPlayersList (ps.map (fun p => playerDataToJVal
        ⟨p.name, convertRoundScoresToRoundScoresData p.roundScores⟩))
      = Except.ok qs
      ∧ qs.length = ps.length
      ∧ (∀ k, (qs.get? k).map PlayerDataDec.name
          = (ps.get? k).map Player.name)
      ∧ ∀ k j, (qs.get? k).map (fun q => q.roundScores.getD j none)
          = (ps.get? k).map (fun p => p.roundScores.getD j none) := by
  induction ps with
  | nil => exact ⟨[], rfl, rfl, fun k => rfl, fun k j => rfl⟩
  | cons p ps ih =>
    obtain ⟨qs, hqs, hlen, hnames, hslots⟩ :=
      ih (fun q hq => hn q (List.mem_cons_of_mem p hq))
    obtain ⟨scores, hscore, hschar⟩ :=
      tryLoadPlayer_enc p (hn p (List.mem_cons_self p ps))
    refine ⟨⟨p.name, scores⟩ :: qs, ?_, ?_, ?_, ?_⟩
    · rw [List.map_cons]
      show (match tryLoadPlayer (playerDataToJVal
          ⟨p.name, convertRoundScoresToRoundScoresData p.roundScores⟩) with
        | Except.error e => Except.error e
        | Except.ok q =>
          match tryLoadPlayersList (ps.map (fun (p : Player) =>
              playerDataToJVal ⟨p.name,
                convertRoundScoresToRoundScoresData p.roundScores⟩)) with
          | Except.error e => Except.error e
          | Except.ok qs => Except.ok (q :: qs)) = _
      rw [hscore, hqs]
    · simp [hlen]
    · intro k
      cases k with
      | zero => rfl
      | succ k =>
        rw [List.get?_cons_succ, List.get?_cons_succ]
        exact hnames k
    · intro k j
      cases k with
      | zero =>
        rw [List.get?_cons_zero, List.get?_cons_zero]
        show some (scores.getD j none) = some (p.roundScores.getD j none)
        rw [hschar j]
      | succ k =>
        rw [List.get?_cons_succ, List.get?_cons_succ]
        exact hslots k j

/-- C6 (amended): for every game with at least one player, all of whose
players have non-empty names (and whose score arrays fit within
`roundCount`, the constructor-established invariant), loading the stored
form back reproduces the round count, the player count, every player's name
and every slot exactly — set scores stay set with the same value and unset
slots stay unset.  Without the name restriction the claim fails: the
decoder rejects an empty player name (`!maybePlayer.name`), so such a game
does not survive the round trip. -/
theorem decode_encode_roundtrip (g : Game) (hg : GameInv g)
    (hp : 1 ≤ g.players.length) (hn : ∀ p ∈ g.players, p.name ≠ "") :
    ∃ data,
      tryLoad (some (gameDataToJVal (convertGameToGameData g)))
        = Except.ok data
      ∧ (convertGameDataToGame data).roundCount = g.roundCount
      ∧ (convertGameDataToGame data).playerCount = g.playerCount
      ∧ (convertGameDataToGame data).players.length = g.players.length
      ∧ (∀ p, getName (convertGameDataToGame data) p = getName g p)
      ∧ ∀ p j, getSlot (convertGameDataToGame data) p j = getSlot g p j := by
  obtain ⟨hglen, hgsc⟩ := hg
  obtain ⟨qs, hqs, hlen, hnames, hslots⟩ := tryLoadPlayersList_enc g.players hn
  have hkey : tryLoad (some (gameDataToJVal (convertGameToGameData g)))
      = if ((convertGameToGameData g).players.map playerDataToJVal).length < 1
        then Except.error ()
        else (tryLoadPlayersList
            ((convertGameToGameData g).players.map playerDataToJVal)).map
          (fun players => (⟨players, (g.roundCount : Int)⟩ : GameDataDec)) :=
    rfl
  have hmap : (convertGameToGameData g).players.map playerDataToJVal
      = g.players.map (fun p => playerDataToJVal
          ⟨p.name, convertRoundScoresToRoundScoresData p.roundScores⟩) := by
    show (g.players.map (fun (p : Player) =>
        (⟨p.name, convertRoundScoresToRoundScoresData p.roundScores⟩ :
          PlayerDataEnc))).map playerDataToJVal = _
    rw [List.map_map]
    rfl
  have hload : tryLoad (some (gameDataToJVal (convertGameToGameData g)))
      = Except.ok ⟨qs, (g.roundCount : Int)⟩ := by
    rw [hkey, hmap, if_neg (by rw [List.length_map]; omega), hqs]
    rfl
  have hqlen : qs.length = g.players.length := hlen
  have hnm : ∀ k, k < qs.length →
      (qs.getD k default).name = (g.players.getD k default).name := by
    intro k hk
    have hk2 : k < g.players.length := by omega
    have h1 := hnames k
    rw [List.get?_eq_getElem?, List.get?_eq_getElem?,
      List.getElem?_eq_getElem hk, List.getElem?_eq_getElem hk2] at h1
    rw [getD_eq_getElem_of_lt _ _ _ hk, getD_eq_getElem_of_lt _ _ _ hk2]
    simpa using h1
  have hsl : ∀ k, k < qs.length → ∀ j,
      (qs.getD k default).roundScores.getD j none
        = (g.players.getD k default).roundScores.getD j none := by
    intro k hk j
    have hk2 : k < g.players.length := by omega
    have h1 := hslots k j
    rw [List.get?_eq_getElem?, List.get?_eq_getElem?,
      List.getElem?_eq_getElem hk, List.getElem?_eq_getElem hk2] at h1
    rw [getD_eq_getElem_of_lt _ _ _ hk, getD_eq_getElem_of_lt _ _ _ hk2]
    simpa using h1
  have hrc : ((g.roundCount : Int)).toNat = g.roundCount := Int.toNat_natCast _
  have hplayers : (convertGameDataToGame ⟨qs, (g.roundCount : Int)⟩).players
      = modifyPlayers qs.length g.roundCount
          (qs.map (fun q => (⟨q.name, q.roundScores⟩ : Player))) := by
    show modifyPlayers qs.length ((g.roundCount : Int)).toNat
        (qs.map (fun q => (⟨q.name, q.roundScores⟩ : Player))) = _
    rw [hrc]
  refine ⟨⟨qs, (g.roundCount : Int)⟩, hload, ?_, ?_, ?_, ?_, ?_⟩
  · show ((g.roundCount : Int)).toNat = g.roundCount
    exact hrc
  · show qs.length = g.playerCount
    omega
  · rw [hplayers, modifyPlayers_length]
    omega
  · intro p
    show ((convertGameDataToGame ⟨qs, (g.roundCount : Int)⟩).players.getD p
      (mkDefaultPlayer p)).name = (g.players.getD p (mkDefaultPlayer p)).name
    rw [hplayers, modifyPlayers_getD]
    by_cases hpq : p < qs.length
    · rw [if_pos hpq]
      have hpq2 : p < (qs.map (fun q =>
          (⟨q.name, q.roundScores⟩ : Player))).length := by
        rw [List.length_map]; omega
      have hpg : p < g.players.length := by omega
      rw [getD_eq_getElem_of_lt _ _ _ hpq2, getD_eq_getElem_of_lt _ _ _ hpg]
      have hqp : (qs.map (fun q => (⟨q.name, q.roundScores⟩ : Player)))[p]
          = (⟨qs[p].name, qs[p].roundScores⟩ : Player) := by
        simp
      rw [hqp]
      show qs[p].name = g.players[p].name
      have := hnm p hpq
      rw [getD_eq_getElem_of_lt _ _ _ hpq, getD_eq_getElem_of_lt _ _ _ hpg]
        at this
      exact this
    · rw [if_neg hpq, getD_eq_default_of_le _ _ _ (by omega)]
  · intro p j
    show ((convertGameDataToGame ⟨qs, (g.roundCount : Int)⟩).players.getD p
        default).roundScores.getD j none
      = ((g.players.getD p default).roundScores).getD j none
    rw [hplayers, modifyPlayers_getD]
    by_cases hpq : p < qs.length
    · rw [if_pos hpq]
      have hpq2 : p < (qs.map (fun q =>
          (⟨q.name, q.roundScores⟩ : Player))).length := by
        rw [List.length_map]; omega
      have hpg : p < g.players.length := by omega
      rw [getD_eq_getElem_of_lt _ _ _ hpq2, getD_eq_getElem_of_lt _ _ _ hpg]
      have hqp : (qs.map (fun q => (⟨q.name, q.roundScores⟩ : Player)))[p]
          = (⟨qs[p].name, qs[p].roundScores⟩ : Player) := by
        simp
      rw [hqp]
      show (qs[p].roundScores.take g.roundCount).getD j none
        = g.players[p].roundScores.getD j none
      have hslp : qs[p].roundScores.getD j none
          = g.players[p].roundScores.getD j none := by
        have := hsl p hpq j
        rw [getD_eq_getElem_of_lt _ _ _ hpq, getD_eq_getElem_of_lt _ _ _ hpg]
          at this
        exact this
      by_cases hj : j < g.roundCount
      · rw [List.getD_eq_getElem?_getD, List.getElem?_take, if_pos hj,
          ← List.getD_eq_getElem?_getD]
        exact hslp
      · have hb : g.players[p].roundScores.length ≤ g.roundCount :=
          hgsc _ (List.getElem_mem hpg)
        rw [List.getD_eq_getElem?_getD, List.getElem?_take, if_neg hj]
        rw [List.getD_eq_getElem?_getD, List.getElem?_eq_none (by omega)]
    · rw [if_neg hpq, getD_eq_default_of_le g.players p default (by omega)]

/-- Witness for C6: the 2-round, 1-player default game survives the round
trip. -/
theorem decode_encode_roundtrip_witness :
    GameInv (mkGame 2 1 [])
    ∧ 1 ≤ (mkGame 2 1 []).players.length
    ∧ (∀ p ∈ (mkGame 2 1 []).players, p.name ≠ "")
    ∧ ∃ data,
        tryLoad (some (gameDataToJVal (convertGameToGameData (mkGame 2 1 []))))
          = Except.ok data
        ∧ (convertGameDataToGame data).roundCount = (mkGame 2 1 []).roundCount
        ∧ (convertGameDataToGame data).playerCount
            = (mkGame 2 1 []).playerCount
        ∧ (convertGameDataToGame data).players.length
            = (mkGame 2 1 []).players.length
        ∧ (∀ p, getName (convertGameDataToGame data) p
            = getName (mkGame 2 1 []) p)
        ∧ ∀ p j, getSlot (convertGameDataToGame data) p j
            = getSlot (mkGame 2 1 []) p j :=
  ⟨by decide, by decide, by decide,
    decode_encode_roundtrip (mkGame 2 1 []) (by decide) (by decide)
      (by decide)⟩

/-- C6, counterexample: a 1-round, 1-player game whose player is named `""`
(the source tolerates empty names on rename) does not survive the round
trip — the decoder throws on the falsy name and the caller falls back to a
default game, reproducing nothing. -/
theorem roundtrip_empty_name_counterexample :
    1 ≤ (mkGame 1 1 [⟨"", [some 5]⟩]).players.length
    ∧ tryLoad (some (gameDataToJVal (convertGameToGameData
        (mkGame 1 1 [⟨"", [some 5]⟩])))) = Except.error () :=
  ⟨by decide, rfl⟩
